import Mathlib

/-!
DNSServer (Duet3D WiFiSocketServerRTOS, `src/DNSServer.cpp`)

A shallow embedding of the captive-portal DNS responder.

* A `std::string` is a list of character codes (`List Nat`, one `Nat` per `char`).
* A byte is a `Nat` below 256; a datagram is a `List Nat` of bytes.
* The scratch buffer is seen through the pointer `_buffer` as a map from
  offsets to bytes (`Mem`).  The first `_currentPacketSize` offsets hold the
  datagram copied by `netbuf_copy`; the offsets after them are whatever lies
  behind the `malloc`ed block, and are an input of the model (`Env.beyond`),
  because the code never compares an offset with the packet size.
* The `while` loops carry a fuel argument and return `none` when it runs out.
-/

/-! ## Strings -/

/-- The C library `tolower` in the "C" locale, on a character code. -/
def tolower (c : Nat) : Nat :=
  if 65 ≤ c ∧ c ≤ 90 then c + 32 else c

/-- The character codes of a string literal. -/
def str (s : String) : List Nat :=
  s.toList.map Char.toNat

/-- Scan of `std::string::find`: `rest` is the part of the string from index `i` on. -/
def findFrom (pat : List Nat) : List Nat → Nat → Option Nat
  | [], i => if pat.isPrefixOf [] then some i else none
  | c :: cs, i => if pat.isPrefixOf (c :: cs) then some i else findFrom pat cs (i + 1)

/-- The call `data.find(pat, pos)`: the lowest index `>= pos` at which `pat` occurs,
`none` for `std::string::npos`. -/
def find (data pat : List Nat) (pos : Nat) : Option Nat :=
  if pos ≤ data.length then findFrom pat (data.drop pos) pos else none

/-- The call `data.replace(pos, len, replacement)`. -/
def splice (data : List Nat) (pos len : Nat) (replacement : List Nat) : List Nat :=
  data.take pos ++ replacement ++ data.drop (pos + len)

/-- The `while (pos != npos)` loop of `replace` (lines 11-15).  The last argument counts
the iterations made so far; the result is the final string and the iteration count. -/
def replaceLoop (to_replace replacement : List Nat) :
    Nat → List Nat → Option Nat → Nat → Option (List Nat × Nat)
  | _, data, none, n => some (data, n)
  | 0, _, some _, _ => none
  | fuel + 1, data, some pos, n =>
    replaceLoop to_replace replacement fuel
      (splice data pos to_replace.length replacement)
      (find (splice data pos to_replace.length replacement) to_replace
        (pos + replacement.length))
      (n + 1)

/-- The free function `replace(data, to_replace, replacement)` (lines 8-16), with fuel
for its loop. -/
def replace (fuel : Nat) (data to_replace replacement : List Nat) :
    Option (List Nat × Nat) :=
  replaceLoop to_replace replacement fuel data (find data to_replace 0) 0

/-! ## Memory and the header overlay -/

/-- Bytes by offset from a pointer. -/
abbrev Mem := Nat → Nat

/-- The scratch buffer after `netbuf_copy`: the datagram, followed by what lies beyond
the allocation. -/
def load (pkt : List Nat) (beyond : Mem) : Mem :=
  fun i => pkt.getD i (beyond i)

/-- Store of one byte. -/
def store8 (m : Mem) (i v : Nat) : Mem :=
  fun j => if j = i then v else m j

/-- Load of a `uint16_t` by a little-endian host. -/
def load16 (m : Mem) (i : Nat) : Nat :=
  m i + 256 * m (i + 1)

/-- Store of a `uint16_t` by a little-endian host. -/
def store16 (m : Mem) (i v : Nat) : Mem :=
  store8 (store8 m i (v % 256)) (i + 1) (v / 256 % 256)

/-- The first `n` bytes behind a pointer, as handed to `netbuf_take`. -/
def bytes (m : Mem) (n : Nat) : List Nat :=
  (List.range n).map m

/-- Modelled from the spec: `ntohs` of lwip/def.h (not among the sources), network
(big-endian) to host order for a 16-bit value; the host is little-endian, so the two
bytes are swapped. -/
def ntohs (x : Nat) : Nat :=
  x % 256 * 256 + x / 256 % 256

/-- Modelled from the spec: `htonl` of lwip/def.h (not among the sources), host to
network (big-endian) order for a 32-bit value; the host is little-endian, so the four
bytes are reversed. -/
def htonl (x : Nat) : Nat :=
  x % 256 * 16777216 + x / 256 % 256 * 65536 + x / 65536 % 256 * 256 + x / 16777216 % 256

/-- Modelled from the spec: the constants of DNSServer.h (not among the sources). -/
def DNS_QR_QUERY : Nat := 0

/-- Modelled from the spec: the constants of DNSServer.h (not among the sources). -/
def DNS_QR_RESPONSE : Nat := 1

/-- Modelled from the spec: the constants of DNSServer.h (not among the sources). -/
def DNS_OPCODE_QUERY : Nat := 0

/-- Modelled from the spec: `sizeof(DNSHeader)`, the fixed 12-byte header. -/
def sizeofDNSHeader : Nat := 12

/-- Modelled from the spec: the enumeration `DNSReplyCode` of DNSServer.h (not among the
sources), the RFC 1035 RCODE values 0 to 5. -/
inductive DNSReplyCode where
  | NoError
  | FormatError
  | ServerFailure
  | NonExistentDomain
  | NotImplemented
  | Refused
  deriving DecidableEq, Repr

/-- The value of the enumerator, as produced by the cast `(unsigned char)_errorReplyCode`. -/
def DNSReplyCode.toNat : DNSReplyCode → Nat
  | .NoError => 0
  | .FormatError => 1
  | .ServerFailure => 2
  | .NonExistentDomain => 3
  | .NotImplemented => 4
  | .Refused => 5

/-!
Modelled from the spec: the bit-field structure `DNSHeader` of DNSServer.h (not among
the sources), overlaid on the first 12 bytes of the buffer in the RFC 1035 wire layout:
bytes 0-1 `ID`; byte 2 `QR` (bit 7), `OPCode` (bits 6-3), `AA`, `TC`, `RD` (bits 2, 1, 0);
byte 3 `RA` (bit 7), `Z` (bits 6-4), `RCode` (bits 3-0); bytes 4-5 `QDCount`, 6-7
`ANCount`, 8-9 `NSCount`, 10-11 `ARCount`.
-/
namespace DNSHeader

/-- Modelled from the spec: header field `ID` (bytes 0-1), as the host loads it. -/
def ID (m : Mem) : Nat := load16 m 0

/-- Modelled from the spec: header bit `QR` (byte 2, bit 7). -/
def QR (m : Mem) : Nat := m 2 / 128 % 2

/-- Modelled from the spec: header field `OPCode` (byte 2, bits 6-3). -/
def OPCode (m : Mem) : Nat := m 2 / 8 % 16

/-- Modelled from the spec: header bit `AA` (byte 2, bit 2). -/
def AA (m : Mem) : Nat := m 2 / 4 % 2

/-- Modelled from the spec: header bit `TC` (byte 2, bit 1). -/
def TC (m : Mem) : Nat := m 2 / 2 % 2

/-- Modelled from the spec: header bit `RD` (byte 2, bit 0). -/
def RD (m : Mem) : Nat := m 2 % 2

/-- Modelled from the spec: header bit `RA` (byte 3, bit 7). -/
def RA (m : Mem) : Nat := m 3 / 128 % 2

/-- Modelled from the spec: header field `Z` (byte 3, bits 6-4). -/
def Z (m : Mem) : Nat := m 3 / 16 % 8

/-- Modelled from the spec: header field `RCode` (byte 3, bits 3-0). -/
def RCode (m : Mem) : Nat := m 3 % 16

/-- Modelled from the spec: header field `QDCount` (bytes 4-5), as the host loads it. -/
def QDCount (m : Mem) : Nat := load16 m 4

/-- Modelled from the spec: header field `ANCount` (bytes 6-7), as the host loads it. -/
def ANCount (m : Mem) : Nat := load16 m 6

/-- Modelled from the spec: header field `NSCount` (bytes 8-9), as the host loads it. -/
def NSCount (m : Mem) : Nat := load16 m 8

/-- Modelled from the spec: header field `ARCount` (bytes 10-11), as the host loads it. -/
def ARCount (m : Mem) : Nat := load16 m 10

/-- Modelled from the spec: assignment to the one-bit field `QR`; the other seven bits
of byte 2 stay. -/
def setQR (m : Mem) (v : Nat) : Mem := store8 m 2 (m 2 % 128 + 128 * (v % 2))

/-- Modelled from the spec: assignment to the four-bit field `RCode`; the upper four
bits of byte 3 stay. -/
def setRCode (m : Mem) (v : Nat) : Mem := store8 m 3 (m 3 / 16 * 16 + v % 16)

/-- Modelled from the spec: assignment to `QDCount`. -/
def setQDCount (m : Mem) (v : Nat) : Mem := store16 m 4 v

/-- Modelled from the spec: assignment to `ANCount`. -/
def setANCount (m : Mem) (v : Nat) : Mem := store16 m 6 v

end DNSHeader

/-! ## The server -/

/-- What the code reads from its surroundings besides the datagram. -/
structure Env where
  /-- The address space by absolute address: line 180-183 cast the value of `_ttl` to a
  byte pointer and read through it. -/
  ram : Mem
  /-- The bytes at the offsets from `_buffer` that lie beyond the allocated block. -/
  beyond : Mem
  /-- Whether `malloc` (line 94) returns a block. -/
  mallocOk : Bool

/-- The members of the class `DNSServer` that the responder logic uses.  The socket
(`_udp`, `_port`) and the peer address (`_remoteIp`, `_remotePort`) only address the
reply and are left out; `_dnsHeader` is the pointer `_buffer` under another type. -/
structure DNSServer where
  /-- The member `_ttl`: the 32-bit value as stored, that is `htonl(ttl)`. -/
  _ttl : Nat
  /-- The member `_errorReplyCode`. -/
  _errorReplyCode : DNSReplyCode
  /-- The member `_domainName`. -/
  _domainName : List Nat
  /-- The member `_resolvedIP`, an array of four bytes. -/
  _resolvedIP : List Nat
  /-- The member `_currentPacketSize`. -/
  _currentPacketSize : Nat
  /-- The member `_buffer`: `none` for `NULL`, else the memory behind the pointer. -/
  _buffer : Option Mem

/-- A call made by `processNextRequest` that hands a datagram to `netconn_sendto`. -/
inductive Event where
  | replyWithIP (datagram : List Nat)
  | replyWithCustomCode (datagram : List Nat)
  deriving DecidableEq, Repr

/-- The datagram an event sends. -/
def Event.datagram : Event → List Nat
  | .replyWithIP d => d
  | .replyWithCustomCode d => d

/-- The state of the server after a call, with the datagrams the call has sent, oldest
first. -/
structure Outcome where
  server : DNSServer
  sent : List Event

namespace DNSServer

/-- The constructor (lines 18-22): it sets `_ttl` and `_errorReplyCode`; `_domainName`
is default-constructed (empty); the other members keep the indeterminate values `raw`
holds for them. -/
def init (raw : DNSServer) : DNSServer :=
  { raw with
    _ttl := htonl 60
    _errorReplyCode := DNSReplyCode.NonExistentDomain
    _domainName := [] }

/-- The method `setErrorReplyCode` (lines 55-58). -/
def setErrorReplyCode (s : DNSServer) (replyCode : DNSReplyCode) : DNSServer :=
  { s with _errorReplyCode := replyCode }

/-- The method `setTTL` (lines 60-63). -/
def setTTL (s : DNSServer) (ttl : Nat) : DNSServer :=
  { s with _ttl := htonl ttl }

/-- The method `downcaseAndRemoveWwwPrefix` (lines 74-80): lower-case every character,
then `replace(domainName, "www", "")`.  Each iteration of that loop removes three
characters, so the fuel `length + 1` is never used up and the last branch is not
reached. -/
def downcaseAndRemoveWwwPrefix (domainName : List Nat) : List Nat :=
  match replace ((domainName.map tolower).length + 1) (domainName.map tolower)
      (str "www") (str "") with
  | some r => r.1
  | none => domainName.map tolower

/-- The method `start` (lines 24-35), without the socket set-up of lines 37-52.
`resolvedIPAddr` is the four bytes of `resolvedIP.u_addr.ip4.addr` as they lie in
memory; lwip keeps the address in network order, so for `a.b.c.d` they are
`[a, b, c, d]`. -/
def start (s : DNSServer) (domainName : List Nat) (resolvedIPAddr : List Nat) :
    DNSServer :=
  { s with
    _buffer := none
    _domainName := downcaseAndRemoveWwwPrefix domainName
    _resolvedIP :=
      [resolvedIPAddr.getD 0 0, resolvedIPAddr.getD 1 0,
       resolvedIPAddr.getD 2 0, resolvedIPAddr.getD 3 0] }

/-- The method `requestIncludesOnlyOneQuestion` (lines 118-124). -/
def requestIncludesOnlyOneQuestion (m : Mem) : Bool :=
  ntohs (DNSHeader.QDCount m) == 1 &&
  DNSHeader.ANCount m == 0 &&
  DNSHeader.NSCount m == 0 &&
  DNSHeader.ARCount m == 0

/-- The result of the name decoder: the string returned and the buffer offsets it has
read, in the order of the reads. -/
structure Parsed where
  name : List Nat
  reads : List Nat
  deriving DecidableEq, Repr

/-- The `for` loop of lines 139-143, with `k` iterations left: `pos++`, then append the
byte at `start + pos` (buffer offset `12 + pos`).  Returns `pos`, the string and the
offsets read. -/
def copyLabel (m : Mem) : Nat → Nat → List Nat → List Nat → Nat × List Nat × List Nat
  | 0, pos, name, reads => (pos, name, reads)
  | k + 1, pos, name, reads =>
    copyLabel m k (pos + 1) (name ++ [m (12 + (pos + 1))]) (reads ++ [12 + (pos + 1)])

/-- The `while (true)` loop of lines 136-154. -/
def labelLoop (m : Mem) : Nat → Nat → List Nat → List Nat → Option Parsed
  | 0, _, _, _ => none
  | fuel + 1, pos, name, reads =>
    let labelLength := m (12 + pos)
    let r := copyLabel m labelLength pos name (reads ++ [12 + pos])
    let pos := r.1 + 1
    if m (12 + pos) = 0 then
      some ⟨downcaseAndRemoveWwwPrefix r.2.1, r.2.2 ++ [12 + pos]⟩
    else
      labelLoop m fuel pos (r.2.1 ++ str ".") (r.2.2 ++ [12 + pos])

/-- The method `getDomainNameWithoutWwwPrefix` (lines 126-155); `none` when the loop has
not returned within the fuel. -/
def getDomainNameWithoutWwwPrefix (fuel : Nat) (s : DNSServer) : Option Parsed :=
  match s._buffer with
  | none => some ⟨[], []⟩
  | some m =>
    if m 12 = 0 then some ⟨[], [12]⟩
    else labelLoop m fuel 0 [] [12]

/-- The method `replyWithIP` (lines 157-194): the header is changed in the buffer, and
the datagram sent is the `_currentPacketSize` buffer bytes followed by the 16 bytes
`more[0..15]`.  `(uint8_t*)_ttl` is the stored value of `_ttl` used as an address (there
is no address-of operator), so `more[6..9]` are read from `ram` at that address.  The
log line of lines 196-198 comes after the send and changes nothing. -/
def replyWithIP (env : Env) (s : DNSServer) : Outcome :=
  match s._buffer with
  | none => ⟨s, []⟩
  | some m =>
    let m := DNSHeader.setQR m DNS_QR_RESPONSE
    let m := DNSHeader.setANCount m (DNSHeader.QDCount m)
    let m := DNSHeader.setQDCount m (DNSHeader.QDCount m)
    let more : List Nat :=
      [192, 12, 0, 1, 0, 1,
       env.ram (s._ttl + 3), env.ram (s._ttl + 2), env.ram (s._ttl + 1), env.ram s._ttl,
       0, 4,
       s._resolvedIP.getD 3 0, s._resolvedIP.getD 2 0,
       s._resolvedIP.getD 1 0, s._resolvedIP.getD 0 0]
    ⟨{ s with _buffer := some m },
     [Event.replyWithIP (bytes m s._currentPacketSize ++ more)]⟩

/-- The method `replyWithCustomCode` (lines 201-213): the datagram sent is the first
`sizeof(DNSHeader)` bytes of the buffer after the three header assignments. -/
def replyWithCustomCode (s : DNSServer) : Outcome :=
  match s._buffer with
  | none => ⟨s, []⟩
  | some m =>
    let m := DNSHeader.setQR m DNS_QR_RESPONSE
    let m := DNSHeader.setRCode m s._errorReplyCode.toNat
    let m := DNSHeader.setQDCount m 0
    ⟨{ s with _buffer := some m },
     [Event.replyWithCustomCode (bytes m sizeofDNSHeader)]⟩

/-- The name test of line 102, `_domainName == "*" || getDomainNameWithoutWwwPrefix() ==
_domainName`: the decoder runs only when the filter is not `"*"`. -/
def nameMatches (fuel : Nat) (s : DNSServer) : Option Bool :=
  if s._domainName = str "*" then some true
  else (getDomainNameWithoutWwwPrefix fuel s).map (fun p => decide (p.name = s._domainName))

/-- The condition of lines 99-102, evaluated left to right with short-circuit `&&`. -/
def answersWithIP (fuel : Nat) (s : DNSServer) (m : Mem) : Option Bool :=
  if DNSHeader.QR m = DNS_QR_QUERY ∧ DNSHeader.OPCode m = DNS_OPCODE_QUERY ∧
      requestIncludesOnlyOneQuestion m = true then
    nameMatches fuel s
  else some false

/-- Lines 112-114: `free(_buffer)` and `_buffer = NULL`. -/
def release (s : DNSServer) : DNSServer :=
  { s with _buffer := none }

/-- Lines 87 and 93-97 when `malloc` succeeds: the state once the datagram `pkt` has
been copied into the fresh buffer. -/
def receive (s : DNSServer) (pkt : List Nat) (beyond : Mem) : DNSServer :=
  { s with _currentPacketSize := pkt.length, _buffer := some (load pkt beyond) }

/-- The method `processNextRequest` (lines 82-116).  `data` is what `netconn_recv`
delivered (`none` when nothing was received).  The result is `none` when the name
decoder has not returned within the fuel. -/
def processNextRequest (fuel : Nat) (env : Env) (s : DNSServer)
    (data : Option (List Nat)) : Option Outcome :=
  match data with
  | none => some ⟨{ s with _currentPacketSize := 0 }, []⟩
  | some pkt =>
    if pkt.length > 0 then
      if env.mallocOk = false then
        some ⟨release { s with _currentPacketSize := pkt.length }, []⟩
      else
        let s := receive s pkt env.beyond
        match answersWithIP fuel s (load pkt env.beyond) with
        | none => none
        | some true =>
          let r := replyWithIP env s
          some ⟨release r.server, r.sent⟩
        | some false =>
          if DNSHeader.QR (load pkt env.beyond) = DNS_QR_QUERY then
            let r := replyWithCustomCode s
            some ⟨release r.server, r.sent⟩
          else
            some ⟨release s, []⟩
    else
      some ⟨{ s with _currentPacketSize := pkt.length }, []⟩

end DNSServer


/-! ## Wire format of a question name, in the words of the specification -/

/-- The wire form of a name, following the spec's words: each label preceded by its
length byte (the zero terminator is not included). -/
def encodeLabels : List (List Nat) → List Nat
  | [] => []
  | l :: ls => (l.length :: l) ++ encodeLabels ls

/-- The dotted name, following the spec's words: the labels joined with `.`. -/
def dottedName : List (List Nat) → List Nat
  | [] => []
  | [l] => l
  | l :: l' :: ls => l ++ str "." ++ dottedName (l' :: ls)

/-- The bytes `bs` lie in `m` from offset `off` on. -/
def holdsAt (m : Mem) (off : Nat) (bs : List Nat) : Prop :=
  ∀ j, j < bs.length → m (off + j) = bs.getD j 0

/-! ## Normalization, in the words of the specification -/

/-- The occurrences of `"www"` (letter code 119) deleted left to right, in the words of
the specification: where three `w` stand at the front they are dropped and the deletion
goes on behind them, else the first character is kept. -/
def deleteWww : List Nat → List Nat
  | a :: b :: c :: rest =>
    if a = 119 ∧ b = 119 ∧ c = 119 then deleteWww rest else a :: deleteWww (b :: c :: rest)
  | l => l

/-! ## Header fields of a datagram, in the words of the specification -/

namespace Wire

/-- A big-endian unsigned 16-bit field at offset `i` of a datagram. -/
def bigEndian16 (pkt : List Nat) (i : Nat) : Nat :=
  pkt.getD i 0 * 256 + pkt.getD (i + 1) 0

/-- The `QR` bit of a datagram: the top bit of byte 2. -/
def QR (pkt : List Nat) : Nat := pkt.getD 2 0 / 128 % 2

/-- The `OPCode` of a datagram: the four bits below `QR`. -/
def OPCode (pkt : List Nat) : Nat := pkt.getD 2 0 / 8 % 16

/-- The `AA` bit of a datagram. -/
def AA (pkt : List Nat) : Nat := pkt.getD 2 0 / 4 % 2

/-- The `TC` bit of a datagram. -/
def TC (pkt : List Nat) : Nat := pkt.getD 2 0 / 2 % 2

/-- The `RD` bit of a datagram. -/
def RD (pkt : List Nat) : Nat := pkt.getD 2 0 % 2

/-- The `RA` bit of a datagram: the top bit of byte 3. -/
def RA (pkt : List Nat) : Nat := pkt.getD 3 0 / 128 % 2

/-- The reserved `Z` bits of a datagram. -/
def Z (pkt : List Nat) : Nat := pkt.getD 3 0 / 16 % 8

/-- The `RCode` of a datagram: the low four bits of byte 3. -/
def RCode (pkt : List Nat) : Nat := pkt.getD 3 0 % 16

/-- The `id` of a datagram. -/
def ID (pkt : List Nat) : Nat := bigEndian16 pkt 0

/-- The question count of a datagram. -/
def QDCount (pkt : List Nat) : Nat := bigEndian16 pkt 4

/-- The answer count of a datagram. -/
def ANCount (pkt : List Nat) : Nat := bigEndian16 pkt 6

/-- The authority count of a datagram. -/
def NSCount (pkt : List Nat) : Nat := bigEndian16 pkt 8

/-- The additional count of a datagram. -/
def ARCount (pkt : List Nat) : Nat := bigEndian16 pkt 10

end Wire

/-- Every element of a datagram is a byte. -/
def isBytes (pkt : List Nat) : Prop :=
  ∀ b ∈ pkt, b < 256

instance (pkt : List Nat) : Decidable (isBytes pkt) := by
  unfold isBytes; infer_instance

/-- A datagram with a well-formed question name, in the words of the specification: 12
header bytes, then each label preceded by its length byte, then a zero byte, then
arbitrary trailing bytes. -/
def questionDatagram (hdr : List Nat) (labels : List (List Nat)) (trailing : List Nat) :
    List Nat :=
  hdr ++ encodeLabels labels ++ [0] ++ trailing

/-- A well-formed label: 1 to 63 ASCII bytes. -/
def isLabel (l : List Nat) : Prop :=
  1 ≤ l.length ∧ l.length ≤ 63 ∧ ∀ c ∈ l, c < 128

instance (l : List Nat) : Decidable (isLabel l) := by
  unfold isLabel; infer_instance

/-! ## The concrete scenario of the specification -/

/-- Member values before the constructor runs (any values would do). -/
def rawServer : DNSServer :=
  ⟨0, DNSReplyCode.NoError, [], [], 0, none⟩

/-- A freshly constructed server started with filter `"example.com"` and address
192.168.4.1. -/
def exampleServer : DNSServer :=
  (DNSServer.init rawServer).start (str "example.com") [192, 168, 4, 1]

/-- A query header: id 0x1234, QR = 0, OPCode = 0, RD = 1, QDCount = 1, no other
sections. -/
def exampleHeader : List Nat :=
  [0x12, 0x34, 0x01, 0x00, 0x00, 0x01, 0x00, 0x00, 0x00, 0x00, 0x00, 0x00]

/-- The query for the given labels: header, name, type A, class IN. -/
def exampleQuery (labels : List (List Nat)) : List Nat :=
  questionDatagram exampleHeader labels [0x00, 0x01, 0x00, 0x01]

/-- Memory that reads as zero everywhere. -/
def zeroMem : Mem :=
  fun _ => 0

/-- Memory behind a 12-byte block that happens to hold the label sequence of the name
`"a"`: length byte 1, the letter, the terminator. -/
def spellsA : Mem :=
  fun i => if i = 12 then 1 else if i = 13 then 97 else 0

/-- Memory without a zero byte. -/
def allOnes : Mem :=
  fun _ => 1

/-- A freshly constructed server started with filter `"a"`. -/
def serverA : DNSServer :=
  (DNSServer.init rawServer).start (str "a") [192, 168, 4, 1]

/-- An address space in which the 32-bit value `v` lies, in host (little-endian) order,
at the address `v` itself, and every other byte is zero. -/
def valueAtItself (v : Nat) : Mem :=
  fun a => if v ≤ a ∧ a < v + 4 then v / 256 ^ (a - v) % 256 else 0

/-- A freshly constructed server started with filter `"*"`. -/
def serverStar : DNSServer :=
  (DNSServer.init rawServer).start (str "*") [192, 168, 4, 1]

/-- Memory behind a short block that reads as a header with one question: byte 5 is 1,
every other byte is zero. -/
def oneQuestionBeyond : Mem :=
  fun i => if i = 5 then 1 else 0

/-- A standard single-question query, in the words of the specification: a datagram of
bytes with a full header, QR = 0, OPCode = 0, QDCount = 1 and no other section. -/
def isStandardQuery (pkt : List Nat) : Prop :=
  12 ≤ pkt.length ∧ isBytes pkt ∧ Wire.QR pkt = 0 ∧ Wire.OPCode pkt = 0 ∧
    Wire.QDCount pkt = 1 ∧ Wire.ANCount pkt = 0 ∧ Wire.NSCount pkt = 0 ∧
    Wire.ARCount pkt = 0

instance (pkt : List Nat) : Decidable (isStandardQuery pkt) := by
  unfold isStandardQuery; infer_instance

/-! ## Termination of `replace` -/

/-- A hit of the scan lies at or after the start index and leaves room for the pattern. -/
theorem findFrom_some (pat : List Nat) (rest : List Nat) (i p : Nat)
    (h : findFrom pat rest i = some p) :
    i ≤ p ∧ p + pat.length ≤ i + rest.length := by
  induction rest generalizing i with
  | nil =>
    simp only [findFrom] at h
    split_ifs at h with hp
    · have : pat = [] := by
        cases pat with
        | nil => rfl
        | cons a as => simp [List.isPrefixOf] at hp
      simp only [Option.some.injEq] at h
      subst h; subst this
      simp
  | cons c cs ih =>
    simp only [findFrom] at h
    split_ifs at h with hp
    · simp only [Option.some.injEq] at h
      subst h
      have := (List.isPrefixOf_iff_prefix.mp hp).length_le
      exact ⟨le_refl _, by omega⟩
    · have := ih (i + 1) h
      simp only [List.length_cons]
      omega

theorem find_some (data pat : List Nat) (pos p : Nat) (h : find data pat pos = some p) :
    pos ≤ p ∧ p + pat.length ≤ data.length := by
  simp only [find] at h
  split_ifs at h with hpos
  have := findFrom_some pat _ pos p h
  simp only [List.length_drop] at this
  omega

theorem splice_length (data : List Nat) (pos len : Nat) (replacement : List Nat)
    (h : pos + len ≤ data.length) :
    (splice data pos len replacement).length = data.length - len + replacement.length := by
  simp only [splice, List.length_append, List.length_take, List.length_drop]
  omega

/-- The loop of `replace` returns whenever `to_replace` is not empty and the fuel
exceeds the number of characters from the current hit to the end divided by the length
of `to_replace`; the number of iterations it makes is at most that quotient. -/
theorem replaceLoop_terminates (to_replace replacement : List Nat) (hto : to_replace ≠ [])
    (fuel : Nat) (data : List Nat) (p n : Nat)
    (hp : p + to_replace.length ≤ data.length)
    (hfuel : data.length - p < (fuel + 1) * to_replace.length) :
    ∃ r k, replaceLoop to_replace replacement fuel data (some p) n = some (r, n + k) ∧
      k * to_replace.length ≤ data.length - p := by
  have hlen : 1 ≤ to_replace.length := by
    cases to_replace with
    | nil => exact absurd rfl hto
    | cons a as => simp
  induction fuel generalizing data p n with
  | zero => omega
  | succ fuel ih =>
    rw [replaceLoop]
    have hs := splice_length data p to_replace.length replacement hp
    have hmul : (fuel + 1 + 1) * to_replace.length =
        (fuel + 1) * to_replace.length + to_replace.length := Nat.succ_mul _ _
    cases hf : find (splice data p to_replace.length replacement) to_replace
        (p + replacement.length) with
    | none =>
      refine ⟨splice data p to_replace.length replacement, 1, ?_, by omega⟩
      cases fuel <;> rfl
    | some p' =>
      obtain ⟨h1, h2⟩ := find_some _ _ _ _ hf
      obtain ⟨r, k, hr, hk⟩ := ih (splice data p to_replace.length replacement) p' (n + 1) h2
        (by omega)
      refine ⟨r, k + 1, by rw [hr]; congr 2; omega, ?_⟩
      have : (k + 1) * to_replace.length = k * to_replace.length + to_replace.length :=
        Nat.succ_mul _ _
      omega

/-- The free function `replace` returns whenever `to_replace` is not empty and the fuel
is at least `length(data) / length(to_replace)`, after at most that many iterations. -/
theorem replace_terminates (data to_replace replacement : List Nat) (hto : to_replace ≠ [])
    (fuel : Nat) (hfuel : data.length / to_replace.length ≤ fuel) :
    ∃ r k, replace fuel data to_replace replacement = some (r, k) ∧
      k ≤ data.length / to_replace.length := by
  have hlen : 1 ≤ to_replace.length := by
    cases to_replace with
    | nil => exact absurd rfl hto
    | cons a as => simp
  rw [replace]
  cases hf : find data to_replace 0 with
  | none => exact ⟨data, 0, by cases fuel <;> rfl, Nat.zero_le _⟩
  | some p =>
    obtain ⟨-, h2⟩ := find_some _ _ _ _ hf
    have hdiv : data.length < to_replace.length * (data.length / to_replace.length + 1) :=
      Nat.lt_mul_div_succ _ (by omega)
    have hle : to_replace.length * (data.length / to_replace.length + 1) ≤
        (fuel + 1) * to_replace.length := by
      rw [Nat.mul_comm]
      exact Nat.mul_le_mul_right _ (by omega)
    obtain ⟨r, k, hr, hk⟩ := replaceLoop_terminates to_replace replacement hto fuel data p 0 h2
      (by omega)
    refine ⟨r, k, by simpa using hr, ?_⟩
    rw [Nat.le_div_iff_mul_le (by omega)]
    omega

/-- The loop inside `downcaseAndRemoveWwwPrefix` always returns within the fuel the
embedding gives it: the result is the string `replace` leaves. -/
theorem downcaseAndRemoveWwwPrefix_eq (domainName : List Nat) :
    ∃ k, replace ((domainName.map tolower).length + 1) (domainName.map tolower)
      (str "www") (str "") = some (DNSServer.downcaseAndRemoveWwwPrefix domainName, k) := by
  obtain ⟨r, k, hr, -⟩ := replace_terminates (domainName.map tolower) (str "www") (str "")
    (by decide) ((domainName.map tolower).length + 1)
    (le_trans (Nat.div_le_self _ _) (Nat.le_succ _))
  refine ⟨k, ?_⟩
  rw [DNSServer.downcaseAndRemoveWwwPrefix, hr]

/-! ## Memory lemmas -/

theorem holdsAt_cons (m : Mem) (off b : Nat) (bs : List Nat) :
    holdsAt m off (b :: bs) ↔ m off = b ∧ holdsAt m (off + 1) bs := by
  constructor
  · intro h
    refine ⟨by simpa using h 0 (by simp), fun j hj => ?_⟩
    have := h (j + 1) (by simpa using hj)
    simpa [Nat.add_assoc, Nat.add_comm 1 j] using this
  · rintro ⟨h0, h⟩ j hj
    cases j with
    | zero => simpa using h0
    | succ j =>
      have := h j (by simpa using hj)
      simpa [Nat.add_assoc, Nat.add_comm 1 j] using this

theorem holdsAt_append (m : Mem) (off : Nat) (as bs : List Nat) :
    holdsAt m off (as ++ bs) ↔ holdsAt m off as ∧ holdsAt m (off + as.length) bs := by
  induction as generalizing off with
  | nil => simp [holdsAt]
  | cons a as ih =>
    rw [List.cons_append, holdsAt_cons, holdsAt_cons, ih]
    simp [Nat.add_assoc, Nat.add_comm 1, and_assoc]

theorem holdsAt_load (pre bs post : List Nat) (beyond : Mem) :
    holdsAt (load (pre ++ bs ++ post) beyond) pre.length bs := by
  intro j hj
  simp only [load]
  rw [List.getD_eq_getElem _ _ (by simp; omega)]
  rw [List.getD_eq_getElem _ _ hj]
  simp [List.getElem_append, hj]

theorem copyLabel_eq (m : Mem) (k pos : Nat) (name reads : List Nat) :
    DNSServer.copyLabel m k pos name reads =
      (pos + k, name ++ (List.range k).map (fun j => m (12 + pos + 1 + j)),
        reads ++ (List.range k).map (fun j => 12 + pos + 1 + j)) := by
  induction k generalizing pos name reads with
  | zero => simp [DNSServer.copyLabel]
  | succ k ih =>
    rw [DNSServer.copyLabel, ih]
    simp [List.range_succ_eq_map, Nat.add_assoc, Nat.add_comm 1, Function.comp_def]
    exact ⟨fun a _ => by congr 1; omega, fun a _ => by omega⟩

theorem map_range_of_holdsAt (m : Mem) (off : Nat) (l : List Nat) (h : holdsAt m off l) :
    (List.range l.length).map (fun j => m (off + j)) = l := by
  apply List.ext_getElem
  · simp
  · intro i h1 h2
    simp at h1
    simp [h i h1, List.getD_eq_getElem _ _ h1, List.getElem?_eq_getElem h1]

theorem dottedName_cons_cons (l l' : List Nat) (ls : List (List Nat)) :
    dottedName (l :: l' :: ls) = l ++ str "." ++ dottedName (l' :: ls) := rfl

/-- The decoder loop on a buffer that holds a well-formed label sequence from offset
`12 + pos` on. -/
theorem labelLoop_encodeLabels (m : Mem) (l : List Nat) (ls : List (List Nat))
    (fuel pos : Nat) (name reads : List Nat)
    (hfuel : (l :: ls).length ≤ fuel)
    (hlen : ∀ x ∈ l :: ls, 1 ≤ x.length)
    (hm : holdsAt m (12 + pos) (encodeLabels (l :: ls) ++ [0])) :
    ∃ reads', DNSServer.labelLoop m fuel pos name reads =
        some ⟨DNSServer.downcaseAndRemoveWwwPrefix (name ++ dottedName (l :: ls)),
          reads ++ reads'⟩ ∧
      ∀ i ∈ reads', 12 + pos ≤ i ∧ i ≤ 12 + pos + (encodeLabels (l :: ls)).length := by
  induction ls generalizing l fuel pos name reads with
  | nil =>
    obtain ⟨fuel, rfl⟩ : ∃ f, fuel = f + 1 := ⟨fuel - 1, by simp at hfuel; omega⟩
    simp only [encodeLabels, List.append_nil, List.cons_append] at hm
    rw [holdsAt_cons, holdsAt_append] at hm
    obtain ⟨h0, hl, hz⟩ := hm
    have hz0 : m (12 + (pos + l.length + 1)) = 0 := by
      have := hz 0 (by simp)
      simpa [Nat.add_assoc, Nat.add_comm 1] using this
    have hl' : (List.range l.length).map (fun j => m (12 + pos + 1 + j)) = l :=
      map_range_of_holdsAt m _ l hl
    refine ⟨[12 + pos] ++ (List.range l.length).map (fun j => 12 + pos + 1 + j) ++
      [12 + (pos + l.length + 1)], ?_, ?_⟩
    · simp only [DNSServer.labelLoop, h0, copyLabel_eq, hz0, if_true, hl', dottedName]
      simp
    · intro i hi
      simp only [encodeLabels, List.append_nil, List.length_cons]
      simp at hi
      rcases hi with rfl | ⟨a, ha, rfl⟩ | rfl <;> omega
  | cons l' ls ih =>
    obtain ⟨fuel, rfl⟩ : ∃ f, fuel = f + 1 := ⟨fuel - 1, by simp at hfuel; omega⟩
    have henc : encodeLabels (l :: l' :: ls) ++ [0] =
        l.length :: (l ++ (encodeLabels (l' :: ls) ++ [0])) := by
      simp [encodeLabels]
    rw [henc, holdsAt_cons, holdsAt_append] at hm
    obtain ⟨h0, hl, hrest⟩ := hm
    have hl' : (List.range l.length).map (fun j => m (12 + pos + 1 + j)) = l :=
      map_range_of_holdsAt m _ l hl
    have hrest' : holdsAt m (12 + (pos + l.length + 1)) (encodeLabels (l' :: ls) ++ [0]) := by
      have : 12 + pos + 1 + l.length = 12 + (pos + l.length + 1) := by omega
      rwa [this] at hrest
    have hnz : m (12 + (pos + l.length + 1)) ≠ 0 := by
      have h1 := hrest' 0 (by simp [encodeLabels])
      have h2 := hlen l' (by simp)
      simp [encodeLabels] at h1
      omega
    obtain ⟨r', hr', hb⟩ := ih l' fuel (pos + l.length + 1) (name ++ l ++ str ".")
      (reads ++ [12 + pos] ++ (List.range l.length).map (fun j => 12 + pos + 1 + j) ++
        [12 + (pos + l.length + 1)])
      (by simp at hfuel ⊢; omega) (fun x hx => hlen x (by simp at hx ⊢; tauto)) hrest'
    refine ⟨[12 + pos] ++ (List.range l.length).map (fun j => 12 + pos + 1 + j) ++
      [12 + (pos + l.length + 1)] ++ r', ?_, ?_⟩
    · simp only [DNSServer.labelLoop, h0, copyLabel_eq, hnz, if_false, hl']
      rw [hr', dottedName_cons_cons]
      simp [List.append_assoc]
    · intro i hi
      have hE : (encodeLabels (l :: l' :: ls)).length =
          l.length + 1 + (encodeLabels (l' :: ls)).length := by
        simp [encodeLabels]; omega
      rw [hE]
      simp only [List.mem_append, List.mem_singleton, List.mem_map, List.mem_range] at hi
      rcases hi with ((rfl | ⟨a, ha, rfl⟩) | rfl) | hi
      · omega
      · omega
      · omega
      · have := hb i hi
        omega

theorem downcase_nil : DNSServer.downcaseAndRemoveWwwPrefix [] = [] := by decide

/-- The decoder on a buffer that holds 12 header bytes, a well-formed label sequence and
its zero terminator. -/
theorem getDomainName_encodeLabels (s : DNSServer) (m : Mem) (labels : List (List Nat))
    (fuel : Nat) (hbuf : s._buffer = some m)
    (hfuel : labels.length ≤ fuel)
    (hlen : ∀ x ∈ labels, 1 ≤ x.length)
    (hm : holdsAt m 12 (encodeLabels labels ++ [0])) :
    ∃ reads, DNSServer.getDomainNameWithoutWwwPrefix fuel s =
        some ⟨DNSServer.downcaseAndRemoveWwwPrefix (dottedName labels), reads⟩ ∧
      ∀ i ∈ reads, 12 ≤ i ∧ i ≤ 12 + (encodeLabels labels).length := by
  cases labels with
  | nil =>
    have h0 : m 12 = 0 := by simpa [encodeLabels] using hm 0 (by simp)
    refine ⟨[12], ?_, by simp [encodeLabels]⟩
    simp [DNSServer.getDomainNameWithoutWwwPrefix, hbuf, h0, dottedName, downcase_nil]
  | cons l ls =>
    have h0 : m 12 ≠ 0 := by
      have h1 := hm 0 (by simp [encodeLabels])
      have h2 := hlen l (by simp)
      simp [encodeLabels] at h1
      omega
    obtain ⟨r, hr, hb⟩ := labelLoop_encodeLabels m l ls fuel 0 [] [12] hfuel hlen
      (by simpa using hm)
    refine ⟨[12] ++ r, ?_, ?_⟩
    · simp only [DNSServer.getDomainNameWithoutWwwPrefix, hbuf, h0, if_false, hr]
      simp
    · intro i hi
      simp only [List.mem_append, List.mem_singleton] at hi
      rcases hi with rfl | hi
      · omega
      · have := hb i hi
        omega

/-! ## The header test and the dispatch -/

theorem load_of_lt (pkt : List Nat) (beyond : Mem) (i : Nat) (h : i < pkt.length) :
    load pkt beyond i = pkt.getD i 0 := by
  simp [load, List.getD_eq_getElem?_getD, List.getElem?_eq_getElem h]

theorem getD_lt_of_isBytes (pkt : List Nat) (hb : isBytes pkt) (i : Nat) :
    pkt.getD i 0 < 256 := by
  by_cases h : i < pkt.length
  · rw [List.getD_eq_getElem _ _ h]
    exact hb _ (List.getElem_mem _)
  · rw [List.getD_eq_default _ _ (by omega)]
    omega

theorem bytes_length (m : Mem) (n : Nat) : (bytes m n).length = n := by
  simp [bytes]

theorem bytes_getD (m : Mem) (n i : Nat) (h : i < n) : (bytes m n).getD i 0 = m i := by
  simp [bytes, List.getD_eq_getElem?_getD, List.getElem?_map, List.getElem?_range h]

theorem bytes_load (pkt : List Nat) (beyond : Mem) :
    bytes (load pkt beyond) pkt.length = pkt := by
  apply List.ext_getElem
  · simp [bytes]
  · intro i h1 h2
    simp [bytes, load, List.getD_eq_getElem?_getD, List.getElem?_eq_getElem h2]

/-- The code's test `requestIncludesOnlyOneQuestion`, on a buffer that holds a datagram
of at least 12 bytes, is the specification's test on the big-endian counts. -/
theorem requestIncludesOnlyOneQuestion_iff (pkt : List Nat) (beyond : Mem)
    (hlen : 12 ≤ pkt.length) (hb : isBytes pkt) :
    DNSServer.requestIncludesOnlyOneQuestion (load pkt beyond) = true ↔
      (Wire.QDCount pkt = 1 ∧ Wire.ANCount pkt = 0 ∧ Wire.NSCount pkt = 0 ∧
        Wire.ARCount pkt = 0) := by
  have h4 := getD_lt_of_isBytes pkt hb 4
  have h5 := getD_lt_of_isBytes pkt hb 5
  have h6 := getD_lt_of_isBytes pkt hb 6
  have h7 := getD_lt_of_isBytes pkt hb 7
  simp only [DNSServer.requestIncludesOnlyOneQuestion, DNSHeader.QDCount, DNSHeader.ANCount,
    DNSHeader.NSCount, DNSHeader.ARCount, load16, ntohs, Wire.QDCount, Wire.ANCount,
    Wire.NSCount, Wire.ARCount, Wire.bigEndian16, Bool.and_eq_true, beq_iff_eq,
    load_of_lt pkt beyond 4 (by omega), load_of_lt pkt beyond 5 (by omega),
    load_of_lt pkt beyond 6 (by omega), load_of_lt pkt beyond 7 (by omega),
    load_of_lt pkt beyond 8 (by omega), load_of_lt pkt beyond 9 (by omega),
    load_of_lt pkt beyond 10 (by omega), load_of_lt pkt beyond 11 (by omega)]
  norm_num only
  constructor
  · rintro ⟨⟨⟨h1, h2⟩, h3⟩, h4⟩
    refine ⟨?_, ?_, ?_, ?_⟩ <;> omega
  · rintro ⟨h1, h2, h3, h4⟩
    refine ⟨⟨⟨?_, ?_⟩, ?_⟩, ?_⟩ <;> omega

theorem replyWithIP_sent (env : Env) (s : DNSServer) (m : Mem) (h : s._buffer = some m) :
    ∃ d, (DNSServer.replyWithIP env s).sent = [Event.replyWithIP d] := by
  simp [DNSServer.replyWithIP, h]

theorem replyWithCustomCode_sent (s : DNSServer) (m : Mem) (h : s._buffer = some m) :
    ∃ d, (DNSServer.replyWithCustomCode s).sent = [Event.replyWithCustomCode d] ∧
      d.length = 12 := by
  simp [DNSServer.replyWithCustomCode, h, bytes, sizeofDNSHeader]

/-- What `processNextRequest` does with a non-empty datagram once `malloc` has given a
buffer, in terms of the outcome of the test of lines 99-102. -/
theorem processNextRequest_received (fuel : Nat) (env : Env) (s : DNSServer)
    (pkt : List Nat) (hpos : 0 < pkt.length) (hmalloc : env.mallocOk = true) :
    DNSServer.processNextRequest fuel env s (some pkt) =
      match DNSServer.answersWithIP fuel (s.receive pkt env.beyond) (load pkt env.beyond) with
      | none => none
      | some true =>
        some ⟨(DNSServer.replyWithIP env (s.receive pkt env.beyond)).server.release,
          (DNSServer.replyWithIP env (s.receive pkt env.beyond)).sent⟩
      | some false =>
        if DNSHeader.QR (load pkt env.beyond) = DNS_QR_QUERY then
          some ⟨(DNSServer.replyWithCustomCode (s.receive pkt env.beyond)).server.release,
            (DNSServer.replyWithCustomCode (s.receive pkt env.beyond)).sent⟩
        else
          some ⟨(s.receive pkt env.beyond).release, []⟩ := by
  simp only [DNSServer.processNextRequest, hpos, hmalloc, gt_iff_lt, if_true]
  rfl

theorem holdsAt_questionDatagram (hdr : List Nat) (labels : List (List Nat))
    (trailing : List Nat) (beyond : Mem) (hhdr : hdr.length = 12) :
    holdsAt (load (questionDatagram hdr labels trailing) beyond) 12
      (encodeLabels labels ++ [0]) := by
  have := holdsAt_load hdr (encodeLabels labels ++ [0]) trailing beyond
  rw [hhdr] at this
  simpa [questionDatagram, List.append_assoc] using this

theorem questionDatagram_length (hdr : List Nat) (labels : List (List Nat))
    (trailing : List Nat) :
    (questionDatagram hdr labels trailing).length =
      hdr.length + (encodeLabels labels).length + 1 + trailing.length := by
  simp [questionDatagram]
  omega

theorem header_QR_load (pkt : List Nat) (beyond : Mem) (h : 3 ≤ pkt.length) :
    DNSHeader.QR (load pkt beyond) = Wire.QR pkt := by
  simp [DNSHeader.QR, Wire.QR, load_of_lt pkt beyond 2 (by omega)]

theorem header_OPCode_load (pkt : List Nat) (beyond : Mem) (h : 3 ≤ pkt.length) :
    DNSHeader.OPCode (load pkt beyond) = Wire.OPCode pkt := by
  simp [DNSHeader.OPCode, Wire.OPCode, load_of_lt pkt beyond 2 (by omega)]

/-- The outcome of the test of lines 99-102 on a datagram that carries a well-formed
question name. -/
theorem answersWithIP_wellFormed (fuel : Nat) (s : DNSServer) (beyond : Mem)
    (hdr : List Nat) (labels : List (List Nat)) (trailing : List Nat)
    (hhdr : hdr.length = 12) (hb : isBytes (questionDatagram hdr labels trailing))
    (hlab : ∀ l ∈ labels, 1 ≤ l.length)
    (hfuel : labels.length ≤ fuel)
    (hbuf : s._buffer = some (load (questionDatagram hdr labels trailing) beyond)) :
    DNSServer.answersWithIP fuel s (load (questionDatagram hdr labels trailing) beyond) =
      some (decide
        (Wire.QR (questionDatagram hdr labels trailing) = 0 ∧
         Wire.OPCode (questionDatagram hdr labels trailing) = 0 ∧
         Wire.QDCount (questionDatagram hdr labels trailing) = 1 ∧
         Wire.ANCount (questionDatagram hdr labels trailing) = 0 ∧
         Wire.NSCount (questionDatagram hdr labels trailing) = 0 ∧
         Wire.ARCount (questionDatagram hdr labels trailing) = 0 ∧
         (s._domainName = str "*" ∨
          DNSServer.downcaseAndRemoveWwwPrefix (dottedName labels) = s._domainName))) := by
  have hlen : 12 ≤ (questionDatagram hdr labels trailing).length := by
    rw [questionDatagram_length]; omega
  generalize hpkt : questionDatagram hdr labels trailing = pkt at *
  have hreq := requestIncludesOnlyOneQuestion_iff pkt beyond hlen hb
  obtain ⟨reads, hget, -⟩ := getDomainName_encodeLabels s _ labels fuel hbuf hfuel hlab
    (hpkt ▸ holdsAt_questionDatagram hdr labels trailing beyond hhdr)
  simp only [DNSServer.answersWithIP, header_QR_load pkt beyond (by omega),
    header_OPCode_load pkt beyond (by omega), DNS_QR_QUERY, DNS_OPCODE_QUERY, hreq]
  by_cases hc : Wire.QR pkt = 0 ∧ Wire.OPCode pkt = 0 ∧ Wire.QDCount pkt = 1 ∧
      Wire.ANCount pkt = 0 ∧ Wire.NSCount pkt = 0 ∧ Wire.ARCount pkt = 0
  · rw [if_pos hc]
    obtain ⟨h1, h2, h3, h4, h5, h6⟩ := hc
    by_cases hstar : s._domainName = str "*"
    · rw [DNSServer.nameMatches, if_pos hstar]
      simp only [h1, h2, h3, h4, h5, h6, hstar, true_or, and_self, decide_True]
    · rw [DNSServer.nameMatches, if_neg hstar, hget]
      simp only [h1, h2, h3, h4, h5, h6, hstar, false_or, true_and, Option.map_some']
  · rw [if_neg hc]
    simp only [Option.some.injEq]
    symm
    rw [decide_eq_false_iff_not]
    exact fun h => hc ⟨h.1, h.2.1, h.2.2.1, h.2.2.2.1, h.2.2.2.2.1, h.2.2.2.2.2.1⟩

theorem receive_domainName (s : DNSServer) (pkt : List Nat) (beyond : Mem) :
    (s.receive pkt beyond)._domainName = s._domainName := rfl


/-! ## The reply builders -/

/-- The header as `replyWithIP` leaves it (lines 160-162). -/
theorem replyWithIP_receive (env : Env) (s : DNSServer) (pkt : List Nat) (beyond : Mem) :
    (DNSServer.replyWithIP env (s.receive pkt beyond)).sent =
      [Event.replyWithIP
        (bytes
          (DNSHeader.setQDCount
            (DNSHeader.setANCount (DNSHeader.setQR (load pkt beyond) DNS_QR_RESPONSE)
              (DNSHeader.QDCount (DNSHeader.setQR (load pkt beyond) DNS_QR_RESPONSE)))
            (DNSHeader.QDCount
              (DNSHeader.setANCount (DNSHeader.setQR (load pkt beyond) DNS_QR_RESPONSE)
                (DNSHeader.QDCount (DNSHeader.setQR (load pkt beyond) DNS_QR_RESPONSE)))))
          pkt.length ++
        [192, 12, 0, 1, 0, 1,
         env.ram (s._ttl + 3), env.ram (s._ttl + 2), env.ram (s._ttl + 1), env.ram s._ttl,
         0, 4,
         s._resolvedIP.getD 3 0, s._resolvedIP.getD 2 0,
         s._resolvedIP.getD 1 0, s._resolvedIP.getD 0 0])] := rfl

theorem getD_bytes_append (m : Mem) (n i : Nat) (more : List Nat) (h : i < n) :
    (bytes m n ++ more).getD i 0 = m i := by
  rw [List.getD_append _ _ _ _ (by simpa [bytes_length] using h)]
  exact bytes_getD m n i h

theorem drop_bytes_append (m : Mem) (n : Nat) (more : List Nat) :
    (bytes m n ++ more).drop n = more := by
  have := List.drop_left (bytes m n) more
  rwa [bytes_length] at this

/-- The bytes of the buffer after the header assignments of `replyWithIP`, for a
datagram of at least 12 bytes. -/
theorem replyWithIP_header (pkt : List Nat) (beyond : Mem) (hlen : 12 ≤ pkt.length)
    (hb : isBytes pkt) (i : Nat) (hi : i < pkt.length) :
    DNSHeader.setQDCount
        (DNSHeader.setANCount (DNSHeader.setQR (load pkt beyond) DNS_QR_RESPONSE)
          (DNSHeader.QDCount (DNSHeader.setQR (load pkt beyond) DNS_QR_RESPONSE)))
        (DNSHeader.QDCount
          (DNSHeader.setANCount (DNSHeader.setQR (load pkt beyond) DNS_QR_RESPONSE)
            (DNSHeader.QDCount (DNSHeader.setQR (load pkt beyond) DNS_QR_RESPONSE)))) i =
      if i = 2 then pkt.getD 2 0 % 128 + 128
      else if i = 6 then pkt.getD 4 0
      else if i = 7 then pkt.getD 5 0
      else pkt.getD i 0 := by
  have h4 := getD_lt_of_isBytes pkt hb 4
  have h5 := getD_lt_of_isBytes pkt hb 5
  simp only [DNSHeader.setQDCount, DNSHeader.setANCount, DNSHeader.setQR, DNSHeader.QDCount,
    store16, store8, load16, DNS_QR_RESPONSE,
    load_of_lt pkt beyond 2 (by omega), load_of_lt pkt beyond 4 (by omega),
    load_of_lt pkt beyond 5 (by omega), load_of_lt pkt beyond i hi]
  simp only [Nat.reduceAdd, Nat.reduceEqDiff, Nat.reduceMod, if_false,
    Nat.succ_ne_self, mul_one]
  split_ifs <;> first | omega | rfl | (subst_vars; omega)


/-- The header as `replyWithCustomCode` leaves it (lines 204-206). -/
theorem replyWithCustomCode_receive (s : DNSServer) (pkt : List Nat) (beyond : Mem) :
    (DNSServer.replyWithCustomCode (s.receive pkt beyond)).sent =
      [Event.replyWithCustomCode
        (bytes
          (DNSHeader.setQDCount
            (DNSHeader.setRCode (DNSHeader.setQR (load pkt beyond) DNS_QR_RESPONSE)
              s._errorReplyCode.toNat) 0)
          sizeofDNSHeader)] := rfl

/-- The bytes of the buffer after the header assignments of `replyWithCustomCode`, for
a datagram of at least 12 bytes. -/
theorem replyWithCustomCode_header (pkt : List Nat) (beyond : Mem) (c : Nat)
    (hlen : 12 ≤ pkt.length) (i : Nat) (hi : i < 12) :
    DNSHeader.setQDCount
        (DNSHeader.setRCode (DNSHeader.setQR (load pkt beyond) DNS_QR_RESPONSE) c) 0 i =
      if i = 2 then pkt.getD 2 0 % 128 + 128
      else if i = 3 then pkt.getD 3 0 / 16 * 16 + c % 16
      else if i = 4 then 0
      else if i = 5 then 0
      else pkt.getD i 0 := by
  simp only [DNSHeader.setQDCount, DNSHeader.setRCode, DNSHeader.setQR,
    store16, store8, DNS_QR_RESPONSE,
    load_of_lt pkt beyond 2 (by omega), load_of_lt pkt beyond 3 (by omega),
    load_of_lt pkt beyond i (by omega)]
  simp only [Nat.reduceAdd, Nat.reduceEqDiff, Nat.reduceMod, Nat.reduceDiv, if_false,
    Nat.succ_ne_self, mul_one, Nat.zero_mod]
  split_ifs <;> omega

/-- A datagram of at least three bytes whose QR bit is set makes the test of lines
99-102 fail without the name being decoded. -/
theorem answersWithIP_response (fuel : Nat) (s : DNSServer) (pkt : List Nat) (beyond : Mem)
    (hlen : 3 ≤ pkt.length) (hqr : Wire.QR pkt = 1) :
    DNSServer.answersWithIP fuel s (load pkt beyond) = some false := by
  rw [DNSServer.answersWithIP, header_QR_load pkt beyond hlen, hqr, if_neg]
  simp [DNS_QR_QUERY]

/-- A query that carries a well-formed name and fails the test of lines 99-102 is
answered by `replyWithCustomCode`. -/
theorem processNextRequest_replyWithCustomCode (fuel : Nat) (ram beyond : Mem)
    (s : DNSServer) (hdr : List Nat) (labels : List (List Nat)) (trailing : List Nat)
    (hhdr : hdr.length = 12) (hb : isBytes (questionDatagram hdr labels trailing))
    (hlab : ∀ l ∈ labels, isLabel l) (hfuel : labels.length ≤ fuel)
    (hq : Wire.QR (questionDatagram hdr labels trailing) = 0)
    (hn : ¬ (Wire.QR (questionDatagram hdr labels trailing) = 0 ∧
         Wire.OPCode (questionDatagram hdr labels trailing) = 0 ∧
         Wire.QDCount (questionDatagram hdr labels trailing) = 1 ∧
         Wire.ANCount (questionDatagram hdr labels trailing) = 0 ∧
         Wire.NSCount (questionDatagram hdr labels trailing) = 0 ∧
         Wire.ARCount (questionDatagram hdr labels trailing) = 0 ∧
         (s._domainName = str "*" ∨
          DNSServer.downcaseAndRemoveWwwPrefix (dottedName labels) = s._domainName))) :
    DNSServer.processNextRequest fuel ⟨ram, beyond, true⟩ s
        (some (questionDatagram hdr labels trailing)) =
      some ⟨(DNSServer.replyWithCustomCode
          (s.receive (questionDatagram hdr labels trailing) beyond)).server.release,
        (DNSServer.replyWithCustomCode
          (s.receive (questionDatagram hdr labels trailing) beyond)).sent⟩ := by
  have hlen : 12 ≤ (questionDatagram hdr labels trailing).length := by
    rw [questionDatagram_length]; omega
  rw [processNextRequest_received fuel ⟨ram, beyond, true⟩ s _ (by omega) rfl]
  rw [answersWithIP_wellFormed fuel _ beyond hdr labels trailing hhdr hb
    (fun l hl => (hlab l hl).1) hfuel rfl]
  dsimp only
  rw [receive_domainName, decide_eq_false hn]
  have : DNSHeader.QR (load (questionDatagram hdr labels trailing) beyond) = DNS_QR_QUERY := by
    rw [header_QR_load _ _ (by omega), hq]; rfl
  simp only [this, if_true]



/-- The fields of the 12-byte datagram `replyWithCustomCode` sends for a request of at
least 12 bytes. -/
theorem replyWithCustomCode_fields (s : DNSServer) (pkt : List Nat) (beyond : Mem)
    (hlen : 12 ≤ pkt.length) :
    ∃ d, (DNSServer.replyWithCustomCode (s.receive pkt beyond)).sent =
        [Event.replyWithCustomCode d] ∧
      d.length = 12 ∧
      Wire.QR d = 1 ∧ Wire.RCode d = s._errorReplyCode.toNat ∧
      d.getD 4 0 = 0 ∧ d.getD 5 0 = 0 ∧ Wire.QDCount d = 0 ∧
      Wire.ID d = Wire.ID pkt ∧ Wire.OPCode d = Wire.OPCode pkt ∧
      Wire.AA d = Wire.AA pkt ∧ Wire.TC d = Wire.TC pkt ∧ Wire.RD d = Wire.RD pkt ∧
      Wire.RA d = Wire.RA pkt ∧ Wire.Z d = Wire.Z pkt ∧
      Wire.ANCount d = Wire.ANCount pkt ∧ Wire.NSCount d = Wire.NSCount pkt ∧
      Wire.ARCount d = Wire.ARCount pkt := by
  refine ⟨_, replyWithCustomCode_receive s pkt beyond, by simp [bytes_length, sizeofDNSHeader],
    ?_⟩
  have key : ∀ i, i < 12 →
      (bytes
          (DNSHeader.setQDCount
            (DNSHeader.setRCode (DNSHeader.setQR (load pkt beyond) DNS_QR_RESPONSE)
              s._errorReplyCode.toNat) 0)
          sizeofDNSHeader).getD i 0 =
      if i = 2 then pkt.getD 2 0 % 128 + 128
      else if i = 3 then pkt.getD 3 0 / 16 * 16 + s._errorReplyCode.toNat % 16
      else if i = 4 then 0
      else if i = 5 then 0
      else pkt.getD i 0 := by
    intro i hi
    rw [bytes_getD _ _ _ (by simpa [sizeofDNSHeader] using hi),
      replyWithCustomCode_header pkt beyond _ hlen i hi]
  have hc : s._errorReplyCode.toNat ≤ 5 := by
    cases s._errorReplyCode <;> simp [DNSReplyCode.toNat]
  generalize (bytes _ sizeofDNSHeader : List Nat) = d at key
  generalize s._errorReplyCode.toNat = c at key hc ⊢
  have k0 := key 0 (by omega)
  have k1 := key 1 (by omega)
  have k2 := key 2 (by omega)
  have k3 := key 3 (by omega)
  have k4 := key 4 (by omega)
  have k5 := key 5 (by omega)
  have k6 := key 6 (by omega)
  have k7 := key 7 (by omega)
  have k8 := key 8 (by omega)
  have k9 := key 9 (by omega)
  have k10 := key 10 (by omega)
  have k11 := key 11 (by omega)
  norm_num only at k0 k1 k2 k3 k4 k5 k6 k7 k8 k9 k10 k11
  simp only [if_true, if_false] at k0 k1 k2 k3 k4 k5 k6 k7 k8 k9 k10 k11
  simp only [Wire.QR, Wire.OPCode, Wire.AA, Wire.TC, Wire.RD, Wire.RA, Wire.Z, Wire.RCode,
    Wire.ID, Wire.QDCount, Wire.ANCount, Wire.NSCount, Wire.ARCount, Wire.bigEndian16,
    k0, k1, k2, k3, k4, k5, k6, k7, k8, k9, k10, k11]
  refine ⟨?_, ?_, ?_, ?_, ?_, ?_, ?_, ?_, ?_, ?_, ?_, ?_, ?_, ?_, ?_⟩
  any_goals trivial
  any_goals omega



/-- The decoder loop never returns when no byte from offset 12 on is zero. -/
theorem labelLoop_no_terminator (m : Mem) (h : ∀ i, 12 ≤ i → m i ≠ 0)
    (fuel pos : Nat) (name reads : List Nat) :
    DNSServer.labelLoop m fuel pos name reads = none := by
  induction fuel generalizing pos name reads with
  | zero => rfl
  | succ fuel ih =>
    rw [DNSServer.labelLoop]
    simp only [h _ (Nat.le_add_right 12 _), if_false]
    exact ih _ _ _



/-- On a datagram that carries a well-formed question name, `processNextRequest` (with
a buffer from `malloc`) returns, and the call it makes is `replyWithIP` if and only if
the test of the specification holds. -/
theorem processNextRequest_replyWithIP_iff_wellFormed (fuel : Nat) (ram beyond : Mem) (s : DNSServer)
    (hdr : List Nat) (labels : List (List Nat)) (trailing : List Nat)
    (hhdr : hdr.length = 12) (hb : isBytes (questionDatagram hdr labels trailing))
    (hlab : ∀ l ∈ labels, isLabel l) (hfuel : labels.length ≤ fuel) :
    ∃ out, DNSServer.processNextRequest fuel ⟨ram, beyond, true⟩ s
        (some (questionDatagram hdr labels trailing)) = some out ∧
      ((∃ d, out.sent = [Event.replyWithIP d]) ↔
        (Wire.QR (questionDatagram hdr labels trailing) = 0 ∧
         Wire.OPCode (questionDatagram hdr labels trailing) = 0 ∧
         Wire.QDCount (questionDatagram hdr labels trailing) = 1 ∧
         Wire.ANCount (questionDatagram hdr labels trailing) = 0 ∧
         Wire.NSCount (questionDatagram hdr labels trailing) = 0 ∧
         Wire.ARCount (questionDatagram hdr labels trailing) = 0 ∧
         (s._domainName = str "*" ∨
          DNSServer.downcaseAndRemoveWwwPrefix (dottedName labels) = s._domainName))) := by
  have hlen : 0 < (questionDatagram hdr labels trailing).length := by
    rw [questionDatagram_length]; omega
  rw [processNextRequest_received fuel ⟨ram, beyond, true⟩ s _ hlen rfl]
  rw [answersWithIP_wellFormed fuel _ beyond hdr labels trailing hhdr hb
    (fun l hl => (hlab l hl).1) hfuel rfl]
  generalize questionDatagram hdr labels trailing = pkt
  dsimp only
  rw [receive_domainName]
  by_cases hc : (Wire.QR pkt = 0 ∧ Wire.OPCode pkt = 0 ∧ Wire.QDCount pkt = 1 ∧
      Wire.ANCount pkt = 0 ∧ Wire.NSCount pkt = 0 ∧ Wire.ARCount pkt = 0 ∧
      (s._domainName = str "*" ∨
        DNSServer.downcaseAndRemoveWwwPrefix (dottedName labels) = s._domainName))
  · rw [decide_eq_true hc]
    exact ⟨_, rfl, fun _ => hc,
      fun _ => replyWithIP_sent _ (s.receive pkt beyond) (load pkt beyond) rfl⟩
  · rw [decide_eq_false hc]
    by_cases hq : DNSHeader.QR (load pkt beyond) = DNS_QR_QUERY
    · refine ⟨_, by simp only [hq, if_true]; rfl, fun h => ?_, fun h => absurd h hc⟩
      obtain ⟨d, hd, -⟩ := replyWithCustomCode_sent (s.receive pkt beyond) (load pkt beyond) rfl
      obtain ⟨d', hd'⟩ := h
      simp [hd] at hd'
    · refine ⟨_, by simp only [hq, if_false]; rfl, fun h => ?_, fun h => absurd h hc⟩
      obtain ⟨d', hd'⟩ := h
      simp at hd'


/-- When the header part of the test of lines 99-102 fails, the name is not decoded and
the test fails. -/
theorem answersWithIP_header_fails (fuel : Nat) (s : DNSServer) (pkt : List Nat)
    (beyond : Mem) (hlen : 12 ≤ pkt.length) (hb : isBytes pkt)
    (hn : ¬ (Wire.QR pkt = 0 ∧ Wire.OPCode pkt = 0 ∧ Wire.QDCount pkt = 1 ∧
      Wire.ANCount pkt = 0 ∧ Wire.NSCount pkt = 0 ∧ Wire.ARCount pkt = 0)) :
    DNSServer.answersWithIP fuel s (load pkt beyond) = some false := by
  rw [DNSServer.answersWithIP, if_neg]
  rw [header_QR_load pkt beyond (by omega), header_OPCode_load pkt beyond (by omega),
    requestIncludesOnlyOneQuestion_iff pkt beyond hlen hb]
  exact hn

/-- When the header part of the test of lines 99-102 holds and the filter is `"*"`, the
name is not decoded and the test holds. -/
theorem answersWithIP_star (fuel : Nat) (s : DNSServer) (pkt : List Nat)
    (beyond : Mem) (hlen : 12 ≤ pkt.length) (hb : isBytes pkt)
    (hh : Wire.QR pkt = 0 ∧ Wire.OPCode pkt = 0 ∧ Wire.QDCount pkt = 1 ∧
      Wire.ANCount pkt = 0 ∧ Wire.NSCount pkt = 0 ∧ Wire.ARCount pkt = 0)
    (hstar : s._domainName = str "*") :
    DNSServer.answersWithIP fuel s (load pkt beyond) = some true := by
  rw [DNSServer.answersWithIP, if_pos, DNSServer.nameMatches, if_pos hstar]
  rw [header_QR_load pkt beyond (by omega), header_OPCode_load pkt beyond (by omega),
    requestIncludesOnlyOneQuestion_iff pkt beyond hlen hb]
  exact hh

/-! ## Normalization as left-to-right deletion -/

theorem str_www : str "www" = [119, 119, 119] := by decide

theorem www_isPrefixOf_cons3 (a b c : Nat) (rest : List Nat) :
    (str "www").isPrefixOf (a :: b :: c :: rest) = true ↔ a = 119 ∧ b = 119 ∧ c = 119 := by
  rw [str_www]
  simp only [List.isPrefixOf, Bool.and_eq_true, beq_iff_eq, and_true]
  constructor
  · rintro ⟨h1, h2, h3⟩; exact ⟨h1.symm, h2.symm, h3.symm⟩
  · rintro ⟨h1, h2, h3⟩; exact ⟨h1.symm, h2.symm, h3.symm⟩

theorem findFrom_www_short (l : List Nat) (i : Nat)
    (h : ∀ (a b c : Nat) (rest : List Nat), l = a :: b :: c :: rest → False) :
    findFrom (str "www") l i = none := by
  rw [str_www]
  match l, h with
  | [], _ => simp [findFrom, List.isPrefixOf]
  | [a], _ => simp [findFrom, List.isPrefixOf]
  | [a, b], _ => simp [findFrom, List.isPrefixOf]
  | a :: b :: c :: rest, h => exact absurd rfl (fun e => h a b c rest e)

/-- When the scan of `find` for `"www"` fails, nothing is deleted. -/
theorem deleteWww_of_findFrom_none (l : List Nat) (i : Nat)
    (h : findFrom (str "www") l i = none) : deleteWww l = l := by
  induction l using deleteWww.induct generalizing i with
  | case1 a b c rest hw ih =>
    rw [findFrom, if_pos ((www_isPrefixOf_cons3 a b c rest).mpr hw)] at h
    exact absurd h (by simp)
  | case2 a b c rest hw ih =>
    rw [findFrom, if_neg (fun e => hw ((www_isPrefixOf_cons3 a b c rest).mp e))] at h
    rw [deleteWww, if_neg hw, ih (i + 1) h]
  | case3 l hl => exact deleteWww.eq_2 l hl

/-- When the scan of `find` for `"www"` hits at index `p`, the text before the hit is
kept, the hit is deleted, and the deletion goes on behind it. -/
theorem deleteWww_of_findFrom_some (l : List Nat) (i p : Nat)
    (h : findFrom (str "www") l i = some p) :
    ∃ pre suf, l = pre ++ str "www" ++ suf ∧ p = i + pre.length ∧
      deleteWww l = pre ++ deleteWww suf := by
  induction l using deleteWww.induct generalizing i with
  | case1 a b c rest hw ih =>
    rw [findFrom, if_pos ((www_isPrefixOf_cons3 a b c rest).mpr hw)] at h
    obtain ⟨rfl, rfl, rfl⟩ := hw
    refine ⟨[], rest, by rw [str_www]; rfl, by simpa using h.symm, ?_⟩
    rw [deleteWww, if_pos ⟨rfl, rfl, rfl⟩]; rfl
  | case2 a b c rest hw ih =>
    rw [findFrom, if_neg (fun e => hw ((www_isPrefixOf_cons3 a b c rest).mp e))] at h
    obtain ⟨pre, suf, h1, h2, h3⟩ := ih (i + 1) h
    refine ⟨a :: pre, suf, by rw [h1]; rfl, by simp; omega, ?_⟩
    rw [deleteWww, if_neg hw, h3]; rfl
  | case3 l hl =>
    rw [findFrom_www_short l i hl] at h
    exact absurd h (by simp)

theorem splice_www (A pre suf : List Nat) :
    splice (A ++ (pre ++ str "www" ++ suf)) (A.length + pre.length) (str "www").length (str "") =
      (A ++ pre) ++ suf := by
  have h1 : A ++ (pre ++ str "www" ++ suf) = (A ++ pre) ++ (str "www" ++ suf) := by
    simp [List.append_assoc]
  have h2 : A.length + pre.length = (A ++ pre).length := by simp
  have h3 : (A ++ pre).length + (str "www").length = ((A ++ pre) ++ str "www").length := by
    simp only [List.length_append]
  have h4 : (A ++ pre) ++ (str "www" ++ suf) = ((A ++ pre) ++ str "www") ++ suf := by
    simp [List.append_assoc]
  have h5 : str "" = [] := rfl
  rw [splice, h1, h2, List.take_left, h3, h4, List.drop_left, h5, List.append_nil]

/-- The loop of `replace(data, "www", "")`, entered with the string `A ++ B` and the
search position at the end of `A`: it returns `A` followed by `B` with the occurrences
of `"www"` deleted left to right. -/
theorem replaceLoop_www (fuel : Nat) (A B : List Nat) (n : Nat)
    (hfuel : B.length < 3 * (fuel + 1)) :
    ∃ k, replaceLoop (str "www") (str "") fuel (A ++ B)
        (findFrom (str "www") B A.length) n = some (A ++ deleteWww B, n + k) := by
  induction fuel generalizing A B n with
  | zero =>
    cases hf : findFrom (str "www") B A.length with
    | none => exact ⟨0, by rw [deleteWww_of_findFrom_none B _ hf]; rfl⟩
    | some p =>
      obtain ⟨pre, suf, h1, -, -⟩ := deleteWww_of_findFrom_some B _ p hf
      rw [h1, str_www] at hfuel
      simp at hfuel
      omega
  | succ fuel ih =>
    cases hf : findFrom (str "www") B A.length with
    | none => exact ⟨0, by rw [deleteWww_of_findFrom_none B _ hf]; rfl⟩
    | some p =>
      obtain ⟨pre, suf, h1, h2, h3⟩ := deleteWww_of_findFrom_some B _ p hf
      subst h1 h2
      rw [replaceLoop, splice_www]
      have hfind : find (A ++ pre ++ suf) (str "www") (A.length + pre.length + (str "").length) =
          findFrom (str "www") suf (A ++ pre).length := by
        have h0 : (str "").length = 0 := rfl
        have hl : A.length + pre.length = (A ++ pre).length := by simp
        rw [find, h0, Nat.add_zero, hl, if_pos (by simp), List.drop_left]
      rw [hfind]
      obtain ⟨k, hk⟩ := ih (A ++ pre) suf (n + 1) (by
        rw [str_www] at hfuel
        simp at hfuel
        omega)
      refine ⟨k + 1, ?_⟩
      rw [hk, h3]
      simp [List.append_assoc]
      omega

/-- The string `downcaseAndRemoveWwwPrefix` returns: the lower-cased name with the
occurrences of `"www"` deleted left to right. -/
theorem downcaseAndRemoveWwwPrefix_eq_deleteWww (domainName : List Nat) :
    DNSServer.downcaseAndRemoveWwwPrefix domainName = deleteWww (domainName.map tolower) := by
  obtain ⟨k, hk⟩ := replaceLoop_www ((domainName.map tolower).length + 1) []
    (domainName.map tolower) 0 (by omega)
  have hfind : find (domainName.map tolower) (str "www") 0 =
      findFrom (str "www") (domainName.map tolower) ([] : List Nat).length := by
    rw [find, if_pos (Nat.zero_le _)]; rfl
  rw [DNSServer.downcaseAndRemoveWwwPrefix, replace, hfind]
  simp only [List.nil_append] at hk
  rw [hk]

theorem deleteWww_head (l t : List Nat) (h : deleteWww l = 119 :: t) :
    ∃ l', l = 119 :: l' := by
  induction l using deleteWww.induct generalizing t with
  | case1 a b c rest hw ih => exact ⟨b :: c :: rest, by rw [hw.1]⟩
  | case2 a b c rest hw ih =>
    rw [deleteWww, if_neg hw] at h
    injection h with h1 h2
    exact ⟨b :: c :: rest, by rw [h1]⟩
  | case3 l hl =>
    rw [deleteWww.eq_2 l hl] at h
    exact ⟨t, h⟩

theorem deleteWww_head2 (l t : List Nat) (h : deleteWww l = 119 :: 119 :: t) :
    ∃ l', l = 119 :: 119 :: l' := by
  induction l using deleteWww.induct generalizing t with
  | case1 a b c rest hw ih => exact ⟨c :: rest, by rw [hw.1, hw.2.1]⟩
  | case2 a b c rest hw ih =>
    rw [deleteWww, if_neg hw] at h
    injection h with h1 h2
    obtain ⟨l', hl'⟩ := deleteWww_head _ _ h2
    injection hl' with h3 h4
    exact ⟨c :: rest, by rw [h1, h3]⟩
  | case3 l hl =>
    rw [deleteWww.eq_2 l hl] at h
    exact ⟨t, h⟩

/-- No `"www"` is left after the deletion, also none formed across a deletion point. -/
theorem deleteWww_no_www (l : List Nat) : ¬ (str "www" <:+: deleteWww l) := by
  induction l using deleteWww.induct with
  | case1 a b c rest hw ih => rw [deleteWww, if_pos hw]; exact ih
  | case2 a b c rest hw ih =>
    rw [deleteWww, if_neg hw, List.infix_cons_iff]
    rintro (hp | hi)
    · rw [str_www, List.cons_prefix_cons] at hp
      obtain ⟨ha, t, ht⟩ := hp
      obtain ⟨l', hl'⟩ := deleteWww_head2 (b :: c :: rest) t (by rw [← ht]; rfl)
      injection hl' with hb htl
      injection htl with hc _
      exact hw ⟨ha.symm, hb, hc⟩
    · exact ih hi
  | case3 l hl =>
    rw [deleteWww.eq_2 l hl]
    intro hi
    have hlen := hi.length_le
    rw [str_www] at hlen
    match l, hl, hlen with
    | [], _, h => simp at h
    | [a], _, h => simp at h
    | [a, b], _, h => simp at h
    | a :: b :: c :: rest, hl, _ => exact hl a b c rest rfl

/-- A string without `"www"` is left as it is. -/
theorem deleteWww_of_no_www (l : List Nat) (h : ¬ (str "www" <:+: l)) : deleteWww l = l := by
  induction l using deleteWww.induct with
  | case1 a b c rest hw ih =>
    obtain ⟨rfl, rfl, rfl⟩ := hw
    exact absurd ⟨[], rest, by rw [str_www]; rfl⟩ h
  | case2 a b c rest hw ih =>
    rw [deleteWww, if_neg hw, ih (fun hi => h (List.infix_cons_iff.mpr (Or.inr hi)))]
  | case3 l hl => exact deleteWww.eq_2 l hl

theorem mem_of_mem_deleteWww (l : List Nat) (x : Nat) (h : x ∈ deleteWww l) : x ∈ l := by
  induction l using deleteWww.induct with
  | case1 a b c rest hw ih =>
    rw [deleteWww, if_pos hw] at h
    simp [ih h]
  | case2 a b c rest hw ih =>
    rw [deleteWww, if_neg hw] at h
    rcases List.mem_cons.mp h with rfl | h'
    · simp
    · exact List.mem_cons_of_mem _ (ih h')
  | case3 l hl => rwa [deleteWww.eq_2 l hl] at h

theorem tolower_not_upper (c : Nat) : ¬ (65 ≤ tolower c ∧ tolower c ≤ 90) := by
  unfold tolower
  split_ifs <;> omega

/-- The normalized name has no upper-case letter. -/
theorem downcase_no_upper (x : List Nat) (c : Nat)
    (h : c ∈ DNSServer.downcaseAndRemoveWwwPrefix x) : ¬ (65 ≤ c ∧ c ≤ 90) := by
  rw [downcaseAndRemoveWwwPrefix_eq_deleteWww] at h
  obtain ⟨c', -, rfl⟩ := List.mem_map.mp (mem_of_mem_deleteWww _ _ h)
  exact tolower_not_upper c'

/-! ## State left by `processNextRequest` -/

theorem replyWithIP_server_config (env : Env) (s : DNSServer) :
    (DNSServer.replyWithIP env s).server._ttl = s._ttl ∧
    (DNSServer.replyWithIP env s).server._errorReplyCode = s._errorReplyCode ∧
    (DNSServer.replyWithIP env s).server._domainName = s._domainName ∧
    (DNSServer.replyWithIP env s).server._resolvedIP = s._resolvedIP := by
  cases h : s._buffer <;> simp [DNSServer.replyWithIP, h]

theorem replyWithCustomCode_server_config (s : DNSServer) :
    (DNSServer.replyWithCustomCode s).server._ttl = s._ttl ∧
    (DNSServer.replyWithCustomCode s).server._errorReplyCode = s._errorReplyCode ∧
    (DNSServer.replyWithCustomCode s).server._domainName = s._domainName ∧
    (DNSServer.replyWithCustomCode s).server._resolvedIP = s._resolvedIP := by
  cases h : s._buffer <;> simp [DNSServer.replyWithCustomCode, h]

/-- `processNextRequest` leaves the configuration as it was, and leaves `_buffer` null
when it was null before or a non-empty datagram was received. -/
theorem processNextRequest_frame (fuel : Nat) (env : Env) (s : DNSServer)
    (data : Option (List Nat)) (out : Outcome)
    (h : DNSServer.processNextRequest fuel env s data = some out) :
    out.server._ttl = s._ttl ∧
    out.server._errorReplyCode = s._errorReplyCode ∧
    out.server._domainName = s._domainName ∧
    out.server._resolvedIP = s._resolvedIP ∧
    (s._buffer = none → out.server._buffer = none) ∧
    (∀ pkt, data = some pkt → 0 < pkt.length → out.server._buffer = none) := by
  cases data with
  | none =>
    simp only [DNSServer.processNextRequest, Option.some.injEq] at h
    subst h
    exact ⟨rfl, rfl, rfl, rfl, fun hb => hb, fun pkt hp => by simp at hp⟩
  | some pkt =>
    by_cases hpos : 0 < pkt.length
    · cases hmalloc : env.mallocOk with
      | false =>
        simp only [DNSServer.processNextRequest, gt_iff_lt, hpos, if_true, hmalloc,
          Option.some.injEq] at h
        subst h
        exact ⟨rfl, rfl, rfl, rfl, fun _ => rfl, fun _ _ _ => rfl⟩
      | true =>
        rw [processNextRequest_received fuel env s pkt hpos hmalloc] at h
        cases hA : DNSServer.answersWithIP fuel (s.receive pkt env.beyond)
            (load pkt env.beyond) with
        | none => rw [hA] at h; exact absurd h (by simp)
        | some b =>
          rw [hA] at h
          cases b with
          | true =>
            simp only [Option.some.injEq] at h
            subst h
            obtain ⟨h1, h2, h3, h4⟩ := replyWithIP_server_config env (s.receive pkt env.beyond)
            exact ⟨h1, h2, h3, h4, fun _ => rfl, fun _ _ _ => rfl⟩
          | false =>
            by_cases hq : DNSHeader.QR (load pkt env.beyond) = DNS_QR_QUERY
            · simp only [hq, if_true, Option.some.injEq] at h
              subst h
              obtain ⟨h1, h2, h3, h4⟩ :=
                replyWithCustomCode_server_config (s.receive pkt env.beyond)
              exact ⟨h1, h2, h3, h4, fun _ => rfl, fun _ _ _ => rfl⟩
            · simp only [hq, if_false, Option.some.injEq] at h
              subst h
              exact ⟨rfl, rfl, rfl, rfl, fun _ => rfl, fun _ _ _ => rfl⟩
    · simp only [DNSServer.processNextRequest, gt_iff_lt, hpos, if_false,
        Option.some.injEq] at h
      subst h
      exact ⟨rfl, rfl, rfl, rfl, fun hb => hb,
        fun pkt' hp hl => absurd (by injection hp with hp; rw [hp]; exact hl) hpos⟩

theorem receive_congr (s s' : DNSServer) (pkt : List Nat) (beyond : Mem)
    (h1 : s._ttl = s'._ttl) (h2 : s._errorReplyCode = s'._errorReplyCode)
    (h3 : s._domainName = s'._domainName) (h4 : s._resolvedIP = s'._resolvedIP) :
    s.receive pkt beyond = s'.receive pkt beyond := by
  cases s; cases s'
  simp only [DNSServer.receive] at *
  simp [h1, h2, h3, h4]

/-- With the same surroundings, what `processNextRequest` sends depends on the server
only through its configuration: the values `_buffer` and `_currentPacketSize` hold when
the call starts play no part. -/
theorem processNextRequest_sent_congr (fuel : Nat) (env : Env) (s s' : DNSServer)
    (data : Option (List Nat))
    (h1 : s._ttl = s'._ttl) (h2 : s._errorReplyCode = s'._errorReplyCode)
    (h3 : s._domainName = s'._domainName) (h4 : s._resolvedIP = s'._resolvedIP) :
    (DNSServer.processNextRequest fuel env s data).map Outcome.sent =
      (DNSServer.processNextRequest fuel env s' data).map Outcome.sent := by
  cases data with
  | none => rfl
  | some pkt =>
    by_cases hpos : 0 < pkt.length
    · cases hmalloc : env.mallocOk with
      | false =>
        simp only [DNSServer.processNextRequest, gt_iff_lt, hpos, if_true, hmalloc,
          Option.map_some']
      | true =>
        rw [processNextRequest_received fuel env s pkt hpos hmalloc,
          processNextRequest_received fuel env s' pkt hpos hmalloc,
          receive_congr s s' pkt env.beyond h1 h2 h3 h4]
    · simp only [DNSServer.processNextRequest, gt_iff_lt, hpos, if_false, Option.map_some']

/-- The counts in a datagram sent by `replyWithIP` for a request of at least 12 bytes:
one question, one answer, no other section. -/
theorem processNextRequest_replyWithIP_counts (fuel : Nat) (env : Env) (s : DNSServer)
    (pkt : List Nat) (out : Outcome) (d : List Nat)
    (hlen : 12 ≤ pkt.length) (hb : isBytes pkt)
    (h : DNSServer.processNextRequest fuel env s (some pkt) = some out)
    (hd : Event.replyWithIP d ∈ out.sent) :
    d.getD 4 0 = 0 ∧ d.getD 5 0 = 1 ∧ d.getD 6 0 = 0 ∧ d.getD 7 0 = 1 ∧
    Wire.QDCount d = 1 ∧ Wire.ANCount d = 1 ∧ Wire.NSCount d = 0 ∧ Wire.ARCount d = 0 := by
  cases hmalloc : env.mallocOk with
  | false =>
    simp only [DNSServer.processNextRequest, gt_iff_lt, hmalloc, if_true,
      if_pos (show 0 < pkt.length by omega), Option.some.injEq] at h
    subst h
    simp at hd
  | true =>
    rw [processNextRequest_received fuel env s pkt (by omega) hmalloc] at h
    by_cases hh : Wire.QR pkt = 0 ∧ Wire.OPCode pkt = 0 ∧ Wire.QDCount pkt = 1 ∧
        Wire.ANCount pkt = 0 ∧ Wire.NSCount pkt = 0 ∧ Wire.ARCount pkt = 0
    · cases hA : DNSServer.answersWithIP fuel (s.receive pkt env.beyond)
          (load pkt env.beyond) with
      | none => rw [hA] at h; exact absurd h (by simp)
      | some b =>
        rw [hA] at h
        cases b with
        | true =>
          simp only [Option.some.injEq] at h
          subst h
          rw [replyWithIP_receive] at hd
          simp only [List.mem_singleton, Event.replyWithIP.injEq] at hd
          have key : ∀ i, i < pkt.length → d.getD i 0 =
              if i = 2 then pkt.getD 2 0 % 128 + 128
              else if i = 6 then pkt.getD 4 0
              else if i = 7 then pkt.getD 5 0
              else pkt.getD i 0 := by
            intro i hi
            rw [hd, getD_bytes_append _ _ _ _ hi, replyWithIP_header pkt env.beyond hlen hb i hi]
          have k4 := key 4 (by omega)
          have k5 := key 5 (by omega)
          have k6 := key 6 (by omega)
          have k7 := key 7 (by omega)
          have k8 := key 8 (by omega)
          have k9 := key 9 (by omega)
          have k10 := key 10 (by omega)
          have k11 := key 11 (by omega)
          norm_num only at k4 k5 k6 k7 k8 k9 k10 k11
          simp only [if_true, if_false] at k4 k5 k6 k7 k8 k9 k10 k11
          have b4 := getD_lt_of_isBytes pkt hb 4
          have b5 := getD_lt_of_isBytes pkt hb 5
          obtain ⟨-, -, q, a, n, r⟩ := hh
          simp only [Wire.QDCount, Wire.ANCount, Wire.NSCount, Wire.ARCount,
            Wire.bigEndian16] at q a n r ⊢
          norm_num only at q a n r ⊢
          rw [k4, k5, k6, k7, k8, k9, k10, k11]
          refine ⟨?_, ?_, ?_, ?_, ?_, ?_, ?_, ?_⟩ <;> omega
        | false =>
          by_cases hq : DNSHeader.QR (load pkt env.beyond) = DNS_QR_QUERY
          · simp only [hq, if_true, Option.some.injEq] at h
            subst h
            rw [replyWithCustomCode_receive] at hd
            simp at hd
          · simp only [hq, if_false, Option.some.injEq] at h
            subst h
            simp at hd
    · rw [answersWithIP_header_fails fuel (s.receive pkt env.beyond) pkt env.beyond hlen hb hh]
        at h
      by_cases hq : DNSHeader.QR (load pkt env.beyond) = DNS_QR_QUERY
      · simp only [hq, if_true, Option.some.injEq] at h
        subst h
        rw [replyWithCustomCode_receive] at hd
        simp at hd
      · simp only [hq, if_false, Option.some.injEq] at h
        subst h
        simp at hd

/-! ## The wildcard filter -/

theorem start_domainName (s : DNSServer) (domainName resolvedIPAddr : List Nat) :
    (s.start domainName resolvedIPAddr)._domainName =
      DNSServer.downcaseAndRemoveWwwPrefix domainName := rfl

/-- A server whose stored filter is `"*"` answers every standard single-question query
by `replyWithIP`, whatever follows the header. -/
theorem processNextRequest_star (fuel : Nat) (ram beyond : Mem) (s : DNSServer)
    (pkt : List Nat) (hq : isStandardQuery pkt) (hstar : s._domainName = str "*") :
    ∃ out r, DNSServer.processNextRequest fuel ⟨ram, beyond, true⟩ s (some pkt) = some out ∧
      out.sent = [Event.replyWithIP r] := by
  obtain ⟨hlen, hb, hh⟩ := hq
  rw [processNextRequest_received fuel ⟨ram, beyond, true⟩ s _ (by omega) rfl]
  dsimp only
  rw [answersWithIP_star fuel (s.receive pkt beyond) pkt beyond hlen hb hh hstar]
  obtain ⟨r, hr⟩ := replyWithIP_sent ⟨ram, beyond, true⟩ (s.receive pkt beyond)
    (load pkt beyond) rfl
  exact ⟨_, r, rfl, hr⟩

/-- A server whose stored filter is not `"*"` refuses some standard single-question
query with a well-formed name: the query for "a", or the query for "b" when the filter
is "a", is answered by `replyWithCustomCode` for every fuel of at least 1 and whatever
the memory holds. -/
theorem processNextRequest_not_star_refuses (s : DNSServer)
    (hstar : s._domainName ≠ str "*") :
    ∃ labels, (∀ l ∈ labels, isLabel l) ∧ labels.length = 1 ∧
      isStandardQuery (exampleQuery labels) ∧
      ∀ (fuel : Nat) (ram beyond : Mem), 1 ≤ fuel →
        ∃ out r, DNSServer.processNextRequest fuel ⟨ram, beyond, true⟩ s
            (some (exampleQuery labels)) = some out ∧
          out.sent = [Event.replyWithCustomCode r] ∧ r.length = 12 := by
  by_cases ha : s._domainName = str "a"
  · refine ⟨[str "b"], by decide, rfl, by decide, fun fuel ram beyond hfuel => ?_⟩
    obtain ⟨r, hr, hlen⟩ := replyWithCustomCode_sent
      (s.receive (exampleQuery [str "b"]) beyond) (load (exampleQuery [str "b"]) beyond) rfl
    refine ⟨_, r, processNextRequest_replyWithCustomCode fuel ram beyond s exampleHeader
      [str "b"] [0x00, 0x01, 0x00, 0x01] (by decide) (by decide) (by decide)
      (by simpa using hfuel) (by decide) ?_, hr, hlen⟩
    rintro ⟨-, -, -, -, -, -, h6 | h6⟩
    · exact hstar h6
    · rw [ha] at h6
      exact absurd h6 (by decide)
  · refine ⟨[str "a"], by decide, rfl, by decide, fun fuel ram beyond hfuel => ?_⟩
    obtain ⟨r, hr, hlen⟩ := replyWithCustomCode_sent
      (s.receive (exampleQuery [str "a"]) beyond) (load (exampleQuery [str "a"]) beyond) rfl
    refine ⟨_, r, processNextRequest_replyWithCustomCode fuel ram beyond s exampleHeader
      [str "a"] [0x00, 0x01, 0x00, 0x01] (by decide) (by decide) (by decide)
      (by simpa using hfuel) (by decide) ?_, hr, hlen⟩
    rintro ⟨-, -, -, -, -, -, h6 | h6⟩
    · exact hstar h6
    · have h7 : DNSServer.downcaseAndRemoveWwwPrefix (dottedName [str "a"]) = str "a" := by
        decide
      rw [h7] at h6
      exact ha h6.symm

/-! ## The claims -/

/-- C1: for every datagram of at least 12 bytes whose question name, when the code
decodes it (QR = 0, OPCode = 0, one question and no other section, filter not `"*"`),
is a well-formed label sequence inside the buffer, `processNextRequest` (with a buffer
from `malloc`) returns, and the call it makes is `replyWithIP` if and only if QR = 0,
OPCode = 0, the big-endian QDCount is 1, ANCount = NSCount = ARCount = 0, and the stored
filter is `"*"` or equals the normalized dotted name of the question. -/
theorem C1_replyWithIP_iff (fuel : Nat) (ram beyond : Mem) (s : DNSServer)
    (pkt : List Nat) (labels : List (List Nat)) (trailing : List Nat)
    (hlen : 12 ≤ pkt.length) (hb : isBytes pkt)
    (hwf : Wire.QR pkt = 0 ∧ Wire.OPCode pkt = 0 ∧ Wire.QDCount pkt = 1 ∧
        Wire.ANCount pkt = 0 ∧ Wire.NSCount pkt = 0 ∧ Wire.ARCount pkt = 0 ∧
        s._domainName ≠ str "*" →
      (∃ hdr, hdr.length = 12 ∧ pkt = questionDatagram hdr labels trailing) ∧
      (∀ l ∈ labels, isLabel l) ∧ labels.length ≤ fuel) :
    ∃ out, DNSServer.processNextRequest fuel ⟨ram, beyond, true⟩ s (some pkt) = some out ∧
      ((∃ d, out.sent = [Event.replyWithIP d]) ↔
        (Wire.QR pkt = 0 ∧ Wire.OPCode pkt = 0 ∧ Wire.QDCount pkt = 1 ∧
         Wire.ANCount pkt = 0 ∧ Wire.NSCount pkt = 0 ∧ Wire.ARCount pkt = 0 ∧
         (s._domainName = str "*" ∨
          DNSServer.downcaseAndRemoveWwwPrefix (dottedName labels) = s._domainName))) := by
  by_cases hh : Wire.QR pkt = 0 ∧ Wire.OPCode pkt = 0 ∧ Wire.QDCount pkt = 1 ∧
      Wire.ANCount pkt = 0 ∧ Wire.NSCount pkt = 0 ∧ Wire.ARCount pkt = 0
  · by_cases hstar : s._domainName = str "*"
    · rw [processNextRequest_received fuel ⟨ram, beyond, true⟩ s _ (by omega) rfl]
      dsimp only
      rw [answersWithIP_star fuel (s.receive pkt beyond) pkt beyond hlen hb hh hstar]
      exact ⟨_, rfl,
        fun _ => ⟨hh.1, hh.2.1, hh.2.2.1, hh.2.2.2.1, hh.2.2.2.2.1, hh.2.2.2.2.2, Or.inl hstar⟩,
        fun _ => replyWithIP_sent _ (s.receive pkt beyond) (load pkt beyond) rfl⟩
    · obtain ⟨⟨hdr, hhdr, rfl⟩, hlab, hfuel⟩ :=
        hwf ⟨hh.1, hh.2.1, hh.2.2.1, hh.2.2.2.1, hh.2.2.2.2.1, hh.2.2.2.2.2, hstar⟩
      exact processNextRequest_replyWithIP_iff_wellFormed fuel ram beyond s hdr labels
        trailing hhdr hb hlab hfuel
  · rw [processNextRequest_received fuel ⟨ram, beyond, true⟩ s _ (by omega) rfl]
    dsimp only
    rw [answersWithIP_header_fails fuel (s.receive pkt beyond) pkt beyond hlen hb hh]
    have hnot : ¬ (Wire.QR pkt = 0 ∧ Wire.OPCode pkt = 0 ∧ Wire.QDCount pkt = 1 ∧
        Wire.ANCount pkt = 0 ∧ Wire.NSCount pkt = 0 ∧ Wire.ARCount pkt = 0 ∧
        (s._domainName = str "*" ∨
          DNSServer.downcaseAndRemoveWwwPrefix (dottedName labels) = s._domainName)) :=
      fun h => hh ⟨h.1, h.2.1, h.2.2.1, h.2.2.2.1, h.2.2.2.2.1, h.2.2.2.2.2.1⟩
    by_cases hq : DNSHeader.QR (load pkt beyond) = DNS_QR_QUERY
    · refine ⟨_, by simp only [hq, if_true]; rfl, fun h => ?_, fun h => absurd h hnot⟩
      obtain ⟨d, hd, -⟩ := replyWithCustomCode_sent (s.receive pkt beyond) (load pkt beyond) rfl
      obtain ⟨d', hd'⟩ := h
      simp [hd] at hd'
    · refine ⟨_, by simp only [hq, if_false]; rfl, fun h => ?_, fun h => absurd h hnot⟩
      obtain ⟨d', hd'⟩ := h
      simp at hd'

/-- C1 at the query for www.example.com sent to the server with filter "example.com". -/
theorem C1_replyWithIP_iff_witness :
    12 ≤ (exampleQuery [str "www", str "example", str "com"]).length ∧
    isBytes (exampleQuery [str "www", str "example", str "com"]) ∧
    (∃ out, DNSServer.processNextRequest 3 ⟨zeroMem, zeroMem, true⟩ exampleServer
        (some (exampleQuery [str "www", str "example", str "com"])) = some out ∧
      ((∃ d, out.sent = [Event.replyWithIP d]) ↔
        (Wire.QR (exampleQuery [str "www", str "example", str "com"]) = 0 ∧
         Wire.OPCode (exampleQuery [str "www", str "example", str "com"]) = 0 ∧
         Wire.QDCount (exampleQuery [str "www", str "example", str "com"]) = 1 ∧
         Wire.ANCount (exampleQuery [str "www", str "example", str "com"]) = 0 ∧
         Wire.NSCount (exampleQuery [str "www", str "example", str "com"]) = 0 ∧
         Wire.ARCount (exampleQuery [str "www", str "example", str "com"]) = 0 ∧
         (exampleServer._domainName = str "*" ∨
          DNSServer.downcaseAndRemoveWwwPrefix
            (dottedName [str "www", str "example", str "com"]) =
              exampleServer._domainName)))) :=
  ⟨by decide, by decide,
    C1_replyWithIP_iff 3 zeroMem zeroMem exampleServer
      (exampleQuery [str "www", str "example", str "com"])
      [str "www", str "example", str "com"] [0x00, 0x01, 0x00, 0x01]
      (by decide) (by decide)
      (fun _ => ⟨⟨exampleHeader, by decide, rfl⟩, by decide, by decide⟩)⟩

/-- C2, evaluated at a failing input: a 12-byte datagram that is only a query header
(QR = 0, OPCode = 0, QDCount = 1) makes the decoder read offset 12 and beyond, outside
the 12-byte buffer, so the same datagram and configuration give different outcomes.
When the memory there spells the filter's name the call made is `replyWithIP`; when it
is zero the call made is `replyWithCustomCode`; when it has no zero byte the decoder
does not return for any fuel, and nothing is sent. -/
theorem C2_header_only_query_overread :
    (DNSServer.processNextRequest 1 ⟨zeroMem, spellsA, true⟩ serverA
        (some exampleHeader)).map Outcome.sent =
      some [Event.replyWithIP
        [0x12, 0x34, 0x81, 0x00, 0x00, 0x01, 0x00, 0x01, 0x00, 0x00, 0x00, 0x00,
         0xC0, 0x0C, 0x00, 0x01, 0x00, 0x01, 0x00, 0x00, 0x00, 0x00, 0x00, 0x04,
         1, 4, 168, 192]] ∧
    (DNSServer.processNextRequest 1 ⟨zeroMem, zeroMem, true⟩ serverA
        (some exampleHeader)).map Outcome.sent =
      some [Event.replyWithCustomCode
        [0x12, 0x34, 0x81, 0x03, 0x00, 0x00, 0x00, 0x00, 0x00, 0x00, 0x00, 0x00]] ∧
    ∀ fuel, DNSServer.processNextRequest fuel ⟨zeroMem, allOnes, true⟩ exampleServer
        (some exampleHeader) = none := by
  refine ⟨by decide, by decide, fun fuel => ?_⟩
  rw [processNextRequest_received fuel _ _ _ (by decide) rfl]
  have : DNSServer.answersWithIP fuel (exampleServer.receive exampleHeader allOnes)
      (load exampleHeader allOnes) = none := by
    rw [DNSServer.answersWithIP, if_pos (by decide), DNSServer.nameMatches,
      if_neg (by decide), DNSServer.getDomainNameWithoutWwwPrefix]
    show Option.map _ (if load exampleHeader allOnes 12 = 0 then _ else _) = none
    rw [if_neg (by decide), labelLoop_no_terminator _ (fun i hi => ?_)]
    · rfl
    · have : load exampleHeader allOnes i = 1 := by
        simp only [load]
        rw [List.getD_eq_default _ _ (by simpa [exampleHeader] using hi)]
        rfl
      omega
  simp only [this]

/-- C3: a datagram whose QR bit is 1 (byte 2 present, so any length from 3 up, and in
particular every datagram with a full header) gets no reply, whatever its other
contents, the configuration, the surrounding memory and the result of `malloc`. -/
theorem C3_response_gets_no_reply (fuel : Nat) (env : Env) (s : DNSServer) (pkt : List Nat)
    (hlen : 3 ≤ pkt.length) (hqr : Wire.QR pkt = 1) :
    ∃ out, DNSServer.processNextRequest fuel env s (some pkt) = some out ∧ out.sent = [] := by
  cases hmalloc : env.mallocOk with
  | false =>
    refine ⟨⟨DNSServer.release { s with _currentPacketSize := pkt.length }, []⟩, ?_, rfl⟩
    simp only [DNSServer.processNextRequest, hmalloc, if_true]
    rw [if_pos (by omega)]
  | true =>
    rw [processNextRequest_received fuel env s pkt (by omega) hmalloc,
      answersWithIP_response fuel _ pkt env.beyond hlen hqr]
    have : ¬ DNSHeader.QR (load pkt env.beyond) = DNS_QR_QUERY := by
      rw [header_QR_load _ _ hlen, hqr]; simp [DNS_QR_QUERY]
    simp only [this, if_false]
    exact ⟨_, rfl, rfl⟩

/-- C3 at a 12-byte response header (byte 2 is 0x81). -/
theorem C3_response_gets_no_reply_witness :
    3 ≤ [0x12, 0x34, 0x81, 0x80, 0, 1, 0, 1, 0, 0, 0, 0].length ∧
    Wire.QR [0x12, 0x34, 0x81, 0x80, 0, 1, 0, 1, 0, 0, 0, 0] = 1 ∧
    ∃ out, DNSServer.processNextRequest 0 ⟨zeroMem, zeroMem, true⟩ exampleServer
        (some [0x12, 0x34, 0x81, 0x80, 0, 1, 0, 1, 0, 0, 0, 0]) = some out ∧
      out.sent = [] :=
  ⟨by decide, by decide,
    C3_response_gets_no_reply 0 ⟨zeroMem, zeroMem, true⟩ exampleServer
      [0x12, 0x34, 0x81, 0x80, 0, 1, 0, 1, 0, 0, 0, 0] (by decide) (by decide)⟩

/-- C4, evaluated at a failing input: the 3-byte datagram `00 00 08` (QR = 0,
OPCode = 1) is answered by `replyWithCustomCode` with a 12-byte datagram whose bytes 3
and 6 to 11 are read from behind the 3-byte buffer, whatever lies there. -/
theorem C4_short_datagram_answered (fuel : Nat) (ram beyond : Mem) (s : DNSServer) :
    (DNSServer.processNextRequest fuel ⟨ram, beyond, true⟩ s (some [0, 0, 8])).map
        Outcome.sent =
      some [Event.replyWithCustomCode
        [0, 0, 136, beyond 3 / 16 * 16 + s._errorReplyCode.toNat % 16, 0, 0,
         beyond 6, beyond 7, beyond 8, beyond 9, beyond 10, beyond 11]] := by
  rw [processNextRequest_received fuel _ _ _ (by decide) rfl]
  have h1 : DNSServer.answersWithIP fuel (s.receive [0, 0, 8] beyond) (load [0, 0, 8] beyond) =
      some false := by
    rw [DNSServer.answersWithIP, if_neg]
    rw [header_OPCode_load _ _ (by decide)]
    exact fun h => absurd h.2.1 (by decide)
  have h2 : DNSHeader.QR (load [0, 0, 8] beyond) = DNS_QR_QUERY := by
    rw [header_QR_load _ _ (by decide)]; decide
  simp only [h1, h2, if_true, Option.map_some', replyWithCustomCode_receive]
  rfl

/-- C5: the datagram `replyWithIP` sends for a request of length `n` has length `n + 16`,
and its bytes at offsets `n..n+5` and `n+10..n+11` are `C0 0C`, `00 01`, `00 01` and
`00 04`, whatever the request, the configuration and the surrounding memory. -/
theorem C5_replyWithIP_record (env : Env) (s : DNSServer) (pkt : List Nat) (beyond : Mem) :
    ∃ d, (DNSServer.replyWithIP env (s.receive pkt beyond)).sent = [Event.replyWithIP d] ∧
      d.length = pkt.length + 16 ∧
      (d.drop pkt.length).take 6 = [0xC0, 0x0C, 0x00, 0x01, 0x00, 0x01] ∧
      (d.drop (pkt.length + 10)).take 2 = [0x00, 0x04] := by
  refine ⟨_, replyWithIP_receive env s pkt beyond, ?_, ?_, ?_⟩
  · simp [bytes_length]
  · rw [drop_bytes_append]; rfl
  · rw [← List.drop_drop, drop_bytes_append]; rfl

/-- C6, evaluated at failing inputs: the four TTL bytes of the answer record are the
bytes of `ram` at the addresses `_ttl + 3`, `_ttl + 2`, `_ttl + 1`, `_ttl`, where `_ttl`
is the stored value `htonl(ttl)`.  For ttl = 300 and an address space of zero bytes they
are `00 00 00 00`; and when the stored value lies at that very address (what an
address-of in the cast would read) they are `2C 01 00 00`, least significant byte
first.  Neither is `00 00 01 2C`. -/
theorem C6_ttl_bytes_not_big_endian :
    (∀ (env : Env) (s : DNSServer) (ttl : Nat) (pkt : List Nat) (beyond : Mem),
      (DNSServer.replyWithIP env ((s.setTTL ttl).receive pkt beyond)).sent.map
          (fun e => (e.datagram.drop (pkt.length + 6)).take 4) =
        [[env.ram (htonl ttl + 3), env.ram (htonl ttl + 2), env.ram (htonl ttl + 1),
          env.ram (htonl ttl)]]) ∧
    (DNSServer.processNextRequest 2 ⟨zeroMem, zeroMem, true⟩ (exampleServer.setTTL 300)
        (some (exampleQuery [str "example", str "com"]))).map
      (fun o => o.sent.map (fun e =>
        (e.datagram.drop ((exampleQuery [str "example", str "com"]).length + 6)).take 4)) =
      some [[0x00, 0x00, 0x00, 0x00]] ∧
    (DNSServer.processNextRequest 2 ⟨valueAtItself (htonl 300), zeroMem, true⟩
        (exampleServer.setTTL 300)
        (some (exampleQuery [str "example", str "com"]))).map
      (fun o => o.sent.map (fun e =>
        (e.datagram.drop ((exampleQuery [str "example", str "com"]).length + 6)).take 4)) =
      some [[0x2C, 0x01, 0x00, 0x00]] := by
  refine ⟨fun env s ttl pkt beyond => ?_, by decide, by decide⟩
  rw [replyWithIP_receive]
  simp only [List.map_cons, List.map_nil, Event.datagram]
  rw [← List.drop_drop, drop_bytes_append]
  rfl

/-- C7, evaluated at a failing input: for the address `a.b.c.d` given to `start`, the
four RDATA bytes of the answer record are `d, c, b, a`; for 192.168.4.1 they are
`1, 4, 168, 192`. -/
theorem C7_rdata_bytes_reversed :
    (∀ (env : Env) (s : DNSServer) (domainName : List Nat) (a b c d : Nat)
        (pkt : List Nat) (beyond : Mem),
      (DNSServer.replyWithIP env ((s.start domainName [a, b, c, d]).receive pkt beyond)).sent.map
          (fun e => e.datagram.drop (pkt.length + 12)) =
        [[d, c, b, a]]) ∧
    (DNSServer.processNextRequest 2 ⟨zeroMem, zeroMem, true⟩ exampleServer
        (some (exampleQuery [str "example", str "com"]))).map
      (fun o => o.sent.map (fun e =>
        e.datagram.drop ((exampleQuery [str "example", str "com"]).length + 12))) =
      some [[1, 4, 168, 192]] := by
  refine ⟨fun env s domainName a b c d pkt beyond => ?_, by decide⟩
  rw [replyWithIP_receive]
  simp only [List.map_cons, List.map_nil, Event.datagram]
  rw [← List.drop_drop, drop_bytes_append]
  rfl

/-- C8: for a request of at least 12 bytes, the first `n` bytes of the datagram
`replyWithIP` sends are the request's bytes, except that byte 2 has its top bit (QR) set
and bytes 6-7 (ANCount) are a copy of the request's bytes 4-5 (QDCount); the id, OPCode,
AA, TC, RD, RA, Z, RCode, QDCount, NSCount, ARCount and the bytes from offset 12 on are
the request's. -/
theorem C8_replyWithIP_header (env : Env) (s : DNSServer) (pkt : List Nat) (beyond : Mem)
    (hlen : 12 ≤ pkt.length) (hb : isBytes pkt) :
    ∃ d, (DNSServer.replyWithIP env (s.receive pkt beyond)).sent = [Event.replyWithIP d] ∧
      (∀ i, i < pkt.length → i ≠ 2 → i ≠ 6 → i ≠ 7 → d.getD i 0 = pkt.getD i 0) ∧
      d.getD 2 0 = pkt.getD 2 0 % 128 + 128 ∧
      d.getD 6 0 = pkt.getD 4 0 ∧ d.getD 7 0 = pkt.getD 5 0 ∧
      Wire.QR d = 1 ∧ Wire.ANCount d = Wire.QDCount pkt ∧
      Wire.ID d = Wire.ID pkt ∧ Wire.OPCode d = Wire.OPCode pkt ∧
      Wire.AA d = Wire.AA pkt ∧ Wire.TC d = Wire.TC pkt ∧ Wire.RD d = Wire.RD pkt ∧
      Wire.RA d = Wire.RA pkt ∧ Wire.Z d = Wire.Z pkt ∧ Wire.RCode d = Wire.RCode pkt ∧
      Wire.QDCount d = Wire.QDCount pkt ∧ Wire.NSCount d = Wire.NSCount pkt ∧
      Wire.ARCount d = Wire.ARCount pkt ∧
      (∀ i, 12 ≤ i → i < pkt.length → d.getD i 0 = pkt.getD i 0) := by
  refine ⟨_, replyWithIP_receive env s pkt beyond, ?_⟩
  have key : ∀ i, i < pkt.length →
      (bytes
          (DNSHeader.setQDCount
            (DNSHeader.setANCount (DNSHeader.setQR (load pkt beyond) DNS_QR_RESPONSE)
              (DNSHeader.QDCount (DNSHeader.setQR (load pkt beyond) DNS_QR_RESPONSE)))
            (DNSHeader.QDCount
              (DNSHeader.setANCount (DNSHeader.setQR (load pkt beyond) DNS_QR_RESPONSE)
                (DNSHeader.QDCount (DNSHeader.setQR (load pkt beyond) DNS_QR_RESPONSE)))))
          pkt.length ++
        [192, 12, 0, 1, 0, 1,
         env.ram (s._ttl + 3), env.ram (s._ttl + 2), env.ram (s._ttl + 1), env.ram s._ttl,
         0, 4,
         s._resolvedIP.getD 3 0, s._resolvedIP.getD 2 0,
         s._resolvedIP.getD 1 0, s._resolvedIP.getD 0 0]).getD i 0 =
      if i = 2 then pkt.getD 2 0 % 128 + 128
      else if i = 6 then pkt.getD 4 0
      else if i = 7 then pkt.getD 5 0
      else pkt.getD i 0 := by
    intro i hi
    rw [getD_bytes_append _ _ _ _ hi, replyWithIP_header pkt beyond hlen hb i hi]
  generalize (bytes _ pkt.length ++ _ : List Nat) = d at key
  have k0 := key 0 (by omega)
  have k1 := key 1 (by omega)
  have k2 := key 2 (by omega)
  have k3 := key 3 (by omega)
  have k4 := key 4 (by omega)
  have k5 := key 5 (by omega)
  have k6 := key 6 (by omega)
  have k7 := key 7 (by omega)
  have k8 := key 8 (by omega)
  have k9 := key 9 (by omega)
  have k10 := key 10 (by omega)
  have k11 := key 11 (by omega)
  norm_num only at k0 k1 k2 k3 k4 k5 k6 k7 k8 k9 k10 k11
  simp only [if_true, if_false] at k0 k1 k2 k3 k4 k5 k6 k7 k8 k9 k10 k11
  simp only [Wire.QR, Wire.OPCode, Wire.AA, Wire.TC, Wire.RD, Wire.RA, Wire.Z, Wire.RCode,
    Wire.ID, Wire.QDCount, Wire.ANCount, Wire.NSCount, Wire.ARCount, Wire.bigEndian16,
    k0, k1, k2, k3, k4, k5, k6, k7, k8, k9, k10, k11]
  refine ⟨?_, ?_, ?_, ?_, ?_, ?_, ?_, ?_, ?_, ?_, ?_, ?_, ?_, ?_, ?_, ?_, ?_, ?_⟩
  any_goals trivial
  any_goals omega
  · intro i hi h2 h6 h7
    rw [key i hi, if_neg h2, if_neg h6, if_neg h7]
  · intro i h12 hi
    rw [key i hi, if_neg (by omega), if_neg (by omega), if_neg (by omega)]

/-- C8 at the query for example.com. -/
theorem C8_replyWithIP_header_witness :
    12 ≤ (exampleQuery [str "example", str "com"]).length ∧
    isBytes (exampleQuery [str "example", str "com"]) ∧
    ∃ d, (DNSServer.replyWithIP ⟨zeroMem, zeroMem, true⟩
        (exampleServer.receive (exampleQuery [str "example", str "com"]) zeroMem)).sent =
        [Event.replyWithIP d] ∧
      (∀ i, i < (exampleQuery [str "example", str "com"]).length → i ≠ 2 → i ≠ 6 → i ≠ 7 →
        d.getD i 0 = (exampleQuery [str "example", str "com"]).getD i 0) ∧
      d.getD 2 0 = (exampleQuery [str "example", str "com"]).getD 2 0 % 128 + 128 ∧
      d.getD 6 0 = (exampleQuery [str "example", str "com"]).getD 4 0 ∧
      d.getD 7 0 = (exampleQuery [str "example", str "com"]).getD 5 0 ∧
      Wire.QR d = 1 ∧ Wire.ANCount d = Wire.QDCount (exampleQuery [str "example", str "com"]) ∧
      Wire.ID d = Wire.ID (exampleQuery [str "example", str "com"]) ∧
      Wire.OPCode d = Wire.OPCode (exampleQuery [str "example", str "com"]) ∧
      Wire.AA d = Wire.AA (exampleQuery [str "example", str "com"]) ∧
      Wire.TC d = Wire.TC (exampleQuery [str "example", str "com"]) ∧
      Wire.RD d = Wire.RD (exampleQuery [str "example", str "com"]) ∧
      Wire.RA d = Wire.RA (exampleQuery [str "example", str "com"]) ∧
      Wire.Z d = Wire.Z (exampleQuery [str "example", str "com"]) ∧
      Wire.RCode d = Wire.RCode (exampleQuery [str "example", str "com"]) ∧
      Wire.QDCount d = Wire.QDCount (exampleQuery [str "example", str "com"]) ∧
      Wire.NSCount d = Wire.NSCount (exampleQuery [str "example", str "com"]) ∧
      Wire.ARCount d = Wire.ARCount (exampleQuery [str "example", str "com"]) ∧
      (∀ i, 12 ≤ i → i < (exampleQuery [str "example", str "com"]).length →
        d.getD i 0 = (exampleQuery [str "example", str "com"]).getD i 0) :=
  ⟨by decide, by decide,
    C8_replyWithIP_header ⟨zeroMem, zeroMem, true⟩ exampleServer
      (exampleQuery [str "example", str "com"]) zeroMem (by decide) (by decide)⟩

/-- C9: for a request of at least 12 bytes and every error code `c` set with
`setErrorReplyCode` (the values 0 to 5), the datagram `replyWithCustomCode` sends is
exactly 12 bytes, with QR = 1, RCode = `c`, both QDCount bytes 0, and the id, OPCode,
AA, TC, RD, RA, Z, ANCount, NSCount and ARCount of the request; and the freshly
constructed server with filter "example.com" answers the query for "other.com" by
`replyWithCustomCode` with RCode 3. -/
theorem C9_replyWithCustomCode_header (s : DNSServer) (c : DNSReplyCode) (pkt : List Nat)
    (ram beyond : Mem) (fuel : Nat) (hlen : 12 ≤ pkt.length) (hfuel : 2 ≤ fuel) :
    (∃ d, (DNSServer.replyWithCustomCode ((s.setErrorReplyCode c).receive pkt beyond)).sent =
        [Event.replyWithCustomCode d] ∧
      d.length = 12 ∧
      Wire.QR d = 1 ∧ Wire.RCode d = c.toNat ∧ c.toNat ≤ 5 ∧
      d.getD 4 0 = 0 ∧ d.getD 5 0 = 0 ∧
      Wire.ID d = Wire.ID pkt ∧ Wire.OPCode d = Wire.OPCode pkt ∧
      Wire.AA d = Wire.AA pkt ∧ Wire.TC d = Wire.TC pkt ∧ Wire.RD d = Wire.RD pkt ∧
      Wire.RA d = Wire.RA pkt ∧ Wire.Z d = Wire.Z pkt ∧
      Wire.ANCount d = Wire.ANCount pkt ∧ Wire.NSCount d = Wire.NSCount pkt ∧
      Wire.ARCount d = Wire.ARCount pkt) ∧
    (∃ out d, DNSServer.processNextRequest fuel ⟨ram, beyond, true⟩ exampleServer
        (some (exampleQuery [str "other", str "com"])) = some out ∧
      out.sent = [Event.replyWithCustomCode d] ∧ d.length = 12 ∧ Wire.RCode d = 3) := by
  constructor
  · obtain ⟨d, h1, h2, h3, h4, h5, h6, -, h7⟩ :=
      replyWithCustomCode_fields (s.setErrorReplyCode c) pkt beyond hlen
    refine ⟨d, h1, h2, h3, h4, ?_, h5, h6, h7⟩
    cases c <;> simp [DNSReplyCode.toNat]
  · obtain ⟨d, h1, h2, -, h4, -⟩ :=
      replyWithCustomCode_fields exampleServer
        (exampleQuery [str "other", str "com"]) beyond (by decide)
    refine ⟨_, d, processNextRequest_replyWithCustomCode fuel ram beyond exampleServer
      exampleHeader [str "other", str "com"] [0, 1, 0, 1] (by decide) (by decide)
      (by decide) (by simpa using hfuel) (by decide) (by decide), h1, h2, ?_⟩
    rw [h4]; rfl

/-- C9 at the query for other.com and the error code Refused. -/
theorem C9_replyWithCustomCode_header_witness :
    12 ≤ (exampleQuery [str "other", str "com"]).length ∧ 2 ≤ 2 ∧
    ((∃ d, (DNSServer.replyWithCustomCode
        ((exampleServer.setErrorReplyCode DNSReplyCode.Refused).receive
          (exampleQuery [str "other", str "com"]) zeroMem)).sent =
        [Event.replyWithCustomCode d] ∧
      d.length = 12 ∧
      Wire.QR d = 1 ∧ Wire.RCode d = DNSReplyCode.Refused.toNat ∧
      DNSReplyCode.Refused.toNat ≤ 5 ∧
      d.getD 4 0 = 0 ∧ d.getD 5 0 = 0 ∧
      Wire.ID d = Wire.ID (exampleQuery [str "other", str "com"]) ∧
      Wire.OPCode d = Wire.OPCode (exampleQuery [str "other", str "com"]) ∧
      Wire.AA d = Wire.AA (exampleQuery [str "other", str "com"]) ∧
      Wire.TC d = Wire.TC (exampleQuery [str "other", str "com"]) ∧
      Wire.RD d = Wire.RD (exampleQuery [str "other", str "com"]) ∧
      Wire.RA d = Wire.RA (exampleQuery [str "other", str "com"]) ∧
      Wire.Z d = Wire.Z (exampleQuery [str "other", str "com"]) ∧
      Wire.ANCount d = Wire.ANCount (exampleQuery [str "other", str "com"]) ∧
      Wire.NSCount d = Wire.NSCount (exampleQuery [str "other", str "com"]) ∧
      Wire.ARCount d = Wire.ARCount (exampleQuery [str "other", str "com"])) ∧
    (∃ out d, DNSServer.processNextRequest 2 ⟨zeroMem, zeroMem, true⟩ exampleServer
        (some (exampleQuery [str "other", str "com"])) = some out ∧
      out.sent = [Event.replyWithCustomCode d] ∧ d.length = 12 ∧ Wire.RCode d = 3)) :=
  ⟨by decide, by decide,
    C9_replyWithCustomCode_header exampleServer DNSReplyCode.Refused
      (exampleQuery [str "other", str "com"]) zeroMem zeroMem 2 (by decide) (by decide)⟩

/-- C10: on a buffer made of 12 header bytes, the labels `l1..lk` (each of 1 to 63 ASCII
bytes) each preceded by its length byte, a zero byte, and arbitrary trailing bytes,
`getDomainNameWithoutWwwPrefix` returns for every fuel of at least `k` (it terminates),
every offset it reads lies between 12 and the offset of the zero terminator, and the
string returned is the normalization of `l1.l2. ... .lk` (the empty string for
`k = 0`). -/
theorem C10_getDomainName_wellFormed (s : DNSServer) (hdr : List Nat)
    (labels : List (List Nat)) (trailing : List Nat) (beyond : Mem) (fuel : Nat)
    (hhdr : hdr.length = 12)
    (hlab : ∀ l ∈ labels, isLabel l)
    (hbuf : s._buffer = some (load (questionDatagram hdr labels trailing) beyond))
    (hfuel : labels.length ≤ fuel) :
    (∃ reads, DNSServer.getDomainNameWithoutWwwPrefix fuel s =
        some ⟨DNSServer.downcaseAndRemoveWwwPrefix (dottedName labels), reads⟩ ∧
      ∀ i ∈ reads, 12 ≤ i ∧ i ≤ 12 + (encodeLabels labels).length) ∧
    (questionDatagram hdr labels trailing).getD (12 + (encodeLabels labels).length) 1 = 0 ∧
    (labels = [] → DNSServer.downcaseAndRemoveWwwPrefix (dottedName labels) = []) := by
  refine ⟨?_, ?_, fun h => by subst h; exact downcase_nil⟩
  · exact getDomainName_encodeLabels s _ labels fuel hbuf hfuel (fun x hx => (hlab x hx).1)
      (holdsAt_questionDatagram hdr labels trailing beyond hhdr)
  · have h := holdsAt_questionDatagram hdr labels trailing zeroMem hhdr
      (encodeLabels labels).length (by simp)
    rw [load_of_lt _ _ _ (by rw [questionDatagram_length]; omega)] at h
    rw [List.getD_eq_getElem _ _ (by rw [questionDatagram_length]; omega)]
    rw [List.getD_eq_getElem _ _ (by rw [questionDatagram_length]; omega)] at h
    rw [h]
    simp

/-- C10 at the labels www, Example, com. -/
theorem C10_getDomainName_wellFormed_witness :
    exampleHeader.length = 12 ∧
    (∀ l ∈ [str "www", str "Example", str "com"], isLabel l) ∧
    [str "www", str "Example", str "com"].length ≤ 3 ∧
    ((∃ reads, DNSServer.getDomainNameWithoutWwwPrefix 3
        (exampleServer.receive (exampleQuery [str "www", str "Example", str "com"])
          zeroMem) =
        some ⟨DNSServer.downcaseAndRemoveWwwPrefix
          (dottedName [str "www", str "Example", str "com"]), reads⟩ ∧
      ∀ i ∈ reads, 12 ≤ i ∧
        i ≤ 12 + (encodeLabels [str "www", str "Example", str "com"]).length) ∧
    (questionDatagram exampleHeader [str "www", str "Example", str "com"]
      [0x00, 0x01, 0x00, 0x01]).getD
        (12 + (encodeLabels [str "www", str "Example", str "com"]).length) 1 = 0 ∧
    ([str "www", str "Example", str "com"] = [] →
      DNSServer.downcaseAndRemoveWwwPrefix
        (dottedName [str "www", str "Example", str "com"]) = [])) :=
  ⟨by decide, by decide, by decide,
    C10_getDomainName_wellFormed
      (exampleServer.receive (exampleQuery [str "www", str "Example", str "com"]) zeroMem)
      exampleHeader [str "www", str "Example", str "com"] [0x00, 0x01, 0x00, 0x01] zeroMem 3
      (by decide) (by decide) rfl (by decide)⟩

/-- C11: name normalization is idempotent: for every string `x` of character codes (so
for every ASCII string), `downcaseAndRemoveWwwPrefix` applied to its own result returns
that result. -/
theorem C11_normalize_idempotent (x : List Nat) :
    DNSServer.downcaseAndRemoveWwwPrefix (DNSServer.downcaseAndRemoveWwwPrefix x) =
      DNSServer.downcaseAndRemoveWwwPrefix x := by
  have hmap : (DNSServer.downcaseAndRemoveWwwPrefix x).map tolower =
      DNSServer.downcaseAndRemoveWwwPrefix x := by
    conv_rhs => rw [← List.map_id (DNSServer.downcaseAndRemoveWwwPrefix x)]
    apply List.map_congr_left
    intro c hc
    have := downcase_no_upper x c hc
    rw [tolower, if_neg this]; rfl
  rw [downcaseAndRemoveWwwPrefix_eq_deleteWww (DNSServer.downcaseAndRemoveWwwPrefix x), hmap]
  apply deleteWww_of_no_www
  rw [downcaseAndRemoveWwwPrefix_eq_deleteWww]
  exact deleteWww_no_www _

/-- C12, evaluated at the failing input: `downcaseAndRemoveWwwPrefix` turns
"WWW.Example.com" into ".example.com" (the three letters are removed, the dot stays) and
leaves "example.com" as it is, so the two results differ. -/
theorem C12_www_example_com_keeps_dot :
    DNSServer.downcaseAndRemoveWwwPrefix (str "WWW.Example.com") = str ".example.com" ∧
    DNSServer.downcaseAndRemoveWwwPrefix (str "example.com") = str "example.com" ∧
    DNSServer.downcaseAndRemoveWwwPrefix (str "WWW.Example.com") ≠
      DNSServer.downcaseAndRemoveWwwPrefix (str "example.com") := by
  decide

/-- C13, evaluated at the failing input: the server started with filter "example.com"
stores "example.com"; from the label sequence `[3]www[7]example[3]com[0]` the decoder
returns ".example.com", which is not the stored filter, and the standard single-question
query for www.example.com is answered by `replyWithCustomCode` (RCode 3), not with the
IP record. -/
theorem C13_www_query_gets_error_reply :
    exampleServer._domainName = str "example.com" ∧
    (DNSServer.getDomainNameWithoutWwwPrefix 3
        (exampleServer.receive (exampleQuery [str "www", str "example", str "com"])
          zeroMem)).map DNSServer.Parsed.name = some (str ".example.com") ∧
    (DNSServer.processNextRequest 3 ⟨zeroMem, zeroMem, true⟩ exampleServer
        (some (exampleQuery [str "www", str "example", str "com"]))).map Outcome.sent =
      some [Event.replyWithCustomCode
        [0x12, 0x34, 0x81, 0x03, 0x00, 0x00, 0x00, 0x00, 0x00, 0x00, 0x00, 0x00]] := by
  decide

/-- C14, evaluated at failing inputs.  On a 12-byte buffer the decoder reads offset 12.
On the 13-byte buffer that ends with the label length 5 it reads offsets 13 to 18 and
returns five characters taken from behind the buffer.  On the 13-byte buffer that ends
with the label length 1, with `61 00` behind it, it returns the name "a", which is not
in the buffer. -/
theorem C14_decoder_reads_past_the_buffer :
    exampleHeader.length = 12 ∧
    DNSServer.getDomainNameWithoutWwwPrefix 1 (exampleServer.receive exampleHeader zeroMem) =
      some ⟨[], [12]⟩ ∧
    DNSServer.getDomainNameWithoutWwwPrefix 1
        (exampleServer.receive (exampleHeader ++ [5]) zeroMem) =
      some ⟨[0, 0, 0, 0, 0], [12, 12, 13, 14, 15, 16, 17, 18]⟩ ∧
    DNSServer.getDomainNameWithoutWwwPrefix 1
        (exampleServer.receive (exampleHeader ++ [1]) spellsA) =
      some ⟨str "a", [12, 12, 13, 14]⟩ := by
  decide

/-- C15, with the failing input.  The constructor stores `htonl(60)` (in memory the bytes
`00 00 00 3C`) and `NonExistentDomain` (3), `start` keeps both, and the error reply of
the fresh server carries RCode 3.  But the answer record it sends does not carry the
TTL 60: its TTL bytes are read at the address `htonl(60)`, `00 00 00 00` in a zeroed
address space, and `3C 00 00 00` when the stored value lies at that address; neither is
`00 00 00 3C`. -/
theorem C15_default_ttl_not_in_reply :
    (∀ (raw : DNSServer) (domainName resolvedIPAddr : List Nat),
      (DNSServer.init raw)._ttl = htonl 60 ∧
      (DNSServer.init raw)._errorReplyCode = DNSReplyCode.NonExistentDomain ∧
      ((DNSServer.init raw).start domainName resolvedIPAddr)._ttl = htonl 60 ∧
      ((DNSServer.init raw).start domainName resolvedIPAddr)._errorReplyCode =
        DNSReplyCode.NonExistentDomain) ∧
    htonl 60 = 0x3C000000 ∧ DNSReplyCode.NonExistentDomain.toNat = 3 ∧
    (DNSServer.processNextRequest 2 ⟨zeroMem, zeroMem, true⟩ exampleServer
        (some (exampleQuery [str "other", str "com"]))).map
      (fun o => o.sent.map (fun e => Wire.RCode e.datagram)) = some [3] ∧
    (DNSServer.processNextRequest 2 ⟨zeroMem, zeroMem, true⟩ exampleServer
        (some (exampleQuery [str "example", str "com"]))).map
      (fun o => o.sent.map (fun e =>
        (e.datagram.drop ((exampleQuery [str "example", str "com"]).length + 6)).take 4)) =
      some [[0x00, 0x00, 0x00, 0x00]] ∧
    (DNSServer.processNextRequest 2 ⟨valueAtItself (htonl 60), zeroMem, true⟩ exampleServer
        (some (exampleQuery [str "example", str "com"]))).map
      (fun o => o.sent.map (fun e =>
        (e.datagram.drop ((exampleQuery [str "example", str "com"]).length + 6)).take 4)) =
      some [[0x3C, 0x00, 0x00, 0x00]] := by
  refine ⟨fun raw domainName resolvedIPAddr => ⟨rfl, rfl, rfl, rfl⟩, by decide, by decide,
    by decide, by decide, by decide⟩

/-- C16: for every string `x` of character codes (so for every ASCII string),
`downcaseAndRemoveWwwPrefix x` is the lower-cased `x` with the occurrences of "www"
deleted left to right; it contains no upper-case ASCII letter and no "www" anywhere; and
"mywww.com" becomes "my.com". -/
theorem C16_normalize_is_deleteWww (x : List Nat) :
    DNSServer.downcaseAndRemoveWwwPrefix x = deleteWww (x.map tolower) ∧
    (∀ c ∈ DNSServer.downcaseAndRemoveWwwPrefix x, ¬ (65 ≤ c ∧ c ≤ 90)) ∧
    ¬ (str "www" <:+: DNSServer.downcaseAndRemoveWwwPrefix x) ∧
    DNSServer.downcaseAndRemoveWwwPrefix (str "mywww.com") = str "my.com" := by
  refine ⟨downcaseAndRemoveWwwPrefix_eq_deleteWww x, downcase_no_upper x, ?_, by decide⟩
  rw [downcaseAndRemoveWwwPrefix_eq_deleteWww]
  exact deleteWww_no_www _

/-- C17, with the failing input.  `processNextRequest` leaves the configuration as it
was and `_buffer` null, and with the same surroundings what it sends does not depend on
the `_buffer` and `_currentPacketSize` it starts with.  But what it sends is not a
function of the datagram and the configuration alone: the 12-byte header-only query,
processed twice in a row by the server with filter "a", is answered by `replyWithIP`
when the memory behind the buffer holds `01 61 00` and by `replyWithCustomCode` when it
holds zeros. -/
theorem C17_reply_depends_on_memory_behind_buffer :
    (∀ (fuel : Nat) (env : Env) (s : DNSServer) (data : Option (List Nat)) (out : Outcome),
      DNSServer.processNextRequest fuel env s data = some out →
      out.server._ttl = s._ttl ∧
      out.server._errorReplyCode = s._errorReplyCode ∧
      out.server._domainName = s._domainName ∧
      out.server._resolvedIP = s._resolvedIP ∧
      (s._buffer = none → out.server._buffer = none) ∧
      (∀ pkt, data = some pkt → 0 < pkt.length → out.server._buffer = none)) ∧
    (∀ (fuel : Nat) (env : Env) (s s' : DNSServer) (data : Option (List Nat)),
      s._ttl = s'._ttl → s._errorReplyCode = s'._errorReplyCode →
      s._domainName = s'._domainName → s._resolvedIP = s'._resolvedIP →
      (DNSServer.processNextRequest fuel env s data).map Outcome.sent =
        (DNSServer.processNextRequest fuel env s' data).map Outcome.sent) ∧
    ((DNSServer.processNextRequest 1 ⟨zeroMem, spellsA, true⟩ serverA
        (some exampleHeader)).bind (fun first =>
      (DNSServer.processNextRequest 1 ⟨zeroMem, zeroMem, true⟩ first.server
        (some exampleHeader)).map (fun second => (first.sent, second.sent)))) =
      some
        ([Event.replyWithIP
            [0x12, 0x34, 0x81, 0x00, 0x00, 0x01, 0x00, 0x01, 0x00, 0x00, 0x00, 0x00,
             0xC0, 0x0C, 0x00, 0x01, 0x00, 0x01, 0x00, 0x00, 0x00, 0x00, 0x00, 0x04,
             1, 4, 168, 192]],
         [Event.replyWithCustomCode
            [0x12, 0x34, 0x81, 0x03, 0x00, 0x00, 0x00, 0x00, 0x00, 0x00, 0x00, 0x00]]) := by
  refine ⟨processNextRequest_frame, processNextRequest_sent_congr, by decide⟩

/-- C18, with the failing input.  For a request of at least 12 bytes every datagram sent
by `replyWithIP` has header bytes 4 to 7 equal to `00 01 00 01` (QDCount = ANCount = 1)
and NSCount = ARCount = 0.  But the 3-byte datagram `00 00 00`, with filter `"*"` and
memory behind the buffer that reads as one question, is answered by `replyWithIP` with
19 bytes whose bytes 4 to 7 are `0C 00 01 00`, part of the answer record. -/
theorem C18_short_datagram_on_ip_path :
    (∀ (fuel : Nat) (env : Env) (s : DNSServer) (pkt : List Nat) (out : Outcome)
        (d : List Nat),
      12 ≤ pkt.length → isBytes pkt →
      DNSServer.processNextRequest fuel env s (some pkt) = some out →
      Event.replyWithIP d ∈ out.sent →
      d.getD 4 0 = 0 ∧ d.getD 5 0 = 1 ∧ d.getD 6 0 = 0 ∧ d.getD 7 0 = 1 ∧
      Wire.QDCount d = 1 ∧ Wire.ANCount d = 1 ∧ Wire.NSCount d = 0 ∧ Wire.ARCount d = 0) ∧
    (DNSServer.processNextRequest 0 ⟨zeroMem, oneQuestionBeyond, true⟩ serverStar
        (some [0, 0, 0])).map Outcome.sent =
      some [Event.replyWithIP
        [0x00, 0x00, 0x80, 0xC0, 0x0C, 0x00, 0x01, 0x00, 0x01, 0x00, 0x00, 0x00, 0x00,
         0x00, 0x04, 1, 4, 168, 192]] ∧
    (DNSServer.processNextRequest 0 ⟨zeroMem, oneQuestionBeyond, true⟩ serverStar
        (some [0, 0, 0])).map
      (fun o => o.sent.map (fun e => (e.datagram.drop 4).take 4)) =
      some [[0x0C, 0x00, 0x01, 0x00]] := by
  refine ⟨processNextRequest_replyWithIP_counts, by decide, by decide⟩

/-- C19: the wildcard test is made on the filter as `start` stores it, the normalized
`domainName`.  The server answers by `replyWithIP` every standard single-question query
with a well-formed name (the call returns with that reply for every fuel of at least
the number of labels), whatever the name, if and only if the normalized `domainName` is
`"*"`.  When it is `"*"`, every standard single-question query, whatever follows its
header, gets that reply for every fuel, the name not being decoded.  When it is not,
some standard single-question query with a well-formed name is refused: for every fuel
of at least 1 it is answered by `replyWithCustomCode`.  So the filters "www*" and
"WWW*", which are not the string "*", match everything. -/
theorem C19_wildcard_on_normalized_filter (s : DNSServer)
    (domainName resolvedIPAddr : List Nat) :
    ((∀ (ram beyond : Mem) (hdr : List Nat) (labels : List (List Nat)) (trailing : List Nat)
        (fuel : Nat),
        hdr.length = 12 → (∀ l ∈ labels, isLabel l) →
        isStandardQuery (questionDatagram hdr labels trailing) → labels.length ≤ fuel →
        ∃ out r, DNSServer.processNextRequest fuel ⟨ram, beyond, true⟩
            (s.start domainName resolvedIPAddr)
            (some (questionDatagram hdr labels trailing)) = some out ∧
          out.sent = [Event.replyWithIP r]) ↔
      DNSServer.downcaseAndRemoveWwwPrefix domainName = str "*") ∧
    (DNSServer.downcaseAndRemoveWwwPrefix domainName = str "*" →
      ∀ (fuel : Nat) (ram beyond : Mem) (pkt : List Nat), isStandardQuery pkt →
        ∃ out r, DNSServer.processNextRequest fuel ⟨ram, beyond, true⟩
            (s.start domainName resolvedIPAddr) (some pkt) = some out ∧
          out.sent = [Event.replyWithIP r]) ∧
    (DNSServer.downcaseAndRemoveWwwPrefix domainName ≠ str "*" →
      ∃ labels, (∀ l ∈ labels, isLabel l) ∧ labels.length = 1 ∧
        isStandardQuery (exampleQuery labels) ∧
        ∀ (fuel : Nat) (ram beyond : Mem), 1 ≤ fuel →
          ∃ out r, DNSServer.processNextRequest fuel ⟨ram, beyond, true⟩
              (s.start domainName resolvedIPAddr) (some (exampleQuery labels)) = some out ∧
            out.sent = [Event.replyWithCustomCode r] ∧ r.length = 12) ∧
    DNSServer.downcaseAndRemoveWwwPrefix (str "www*") = str "*" ∧
    DNSServer.downcaseAndRemoveWwwPrefix (str "WWW*") = str "*" ∧
    str "www*" ≠ str "*" ∧ str "WWW*" ≠ str "*" := by
  have hstarIP : DNSServer.downcaseAndRemoveWwwPrefix domainName = str "*" →
      ∀ (fuel : Nat) (ram beyond : Mem) (pkt : List Nat), isStandardQuery pkt →
        ∃ out r, DNSServer.processNextRequest fuel ⟨ram, beyond, true⟩
            (s.start domainName resolvedIPAddr) (some pkt) = some out ∧
          out.sent = [Event.replyWithIP r] :=
    fun h fuel ram beyond pkt hq =>
      processNextRequest_star fuel ram beyond _ pkt hq (by rw [start_domainName]; exact h)
  have hrefuse : DNSServer.downcaseAndRemoveWwwPrefix domainName ≠ str "*" →
      ∃ labels, (∀ l ∈ labels, isLabel l) ∧ labels.length = 1 ∧
        isStandardQuery (exampleQuery labels) ∧
        ∀ (fuel : Nat) (ram beyond : Mem), 1 ≤ fuel →
          ∃ out r, DNSServer.processNextRequest fuel ⟨ram, beyond, true⟩
              (s.start domainName resolvedIPAddr) (some (exampleQuery labels)) = some out ∧
            out.sent = [Event.replyWithCustomCode r] ∧ r.length = 12 :=
    fun hne => processNextRequest_not_star_refuses (s.start domainName resolvedIPAddr)
      (by rw [start_domainName]; exact hne)
  refine ⟨⟨fun h => ?_, fun h ram beyond hdr labels trailing fuel _ _ hq _ =>
    hstarIP h fuel ram beyond _ hq⟩, hstarIP, hrefuse, by decide, by decide, by decide,
    by decide⟩
  by_contra hne
  obtain ⟨labels, hlab, hlen, hq, href⟩ := hrefuse hne
  obtain ⟨out, r, h1, h2⟩ := h zeroMem zeroMem exampleHeader labels [0x00, 0x01, 0x00, 0x01] 1
    (by decide) hlab hq (by omega)
  obtain ⟨out', r', h3, h4, -⟩ := href 1 zeroMem zeroMem (le_refl 1)
  have h5 : exampleQuery labels =
      questionDatagram exampleHeader labels [0x00, 0x01, 0x00, 0x01] := rfl
  rw [h5, h1] at h3
  injection h3 with h3
  subst h3
  rw [h2] at h4
  simp at h4

/-- C20: `replace(data, to_replace, replacement)` returns for every `data` and every
`replacement` whenever `to_replace` is not empty: with fuel for
`length(data) / length(to_replace)` iterations the loop ends, having run at most that
many times.  In the call made, `to_replace = "www"` and `replacement = ""`: the search
goes on from the position of the hit (it does not advance) and the string is three
characters shorter after each step. -/
theorem C20_replace_terminates (data to_replace replacement : List Nat)
    (hto : to_replace ≠ []) :
    (∀ fuel, data.length / to_replace.length ≤ fuel →
      ∃ r k, replace fuel data to_replace replacement = some (r, k) ∧
        k ≤ data.length / to_replace.length) ∧
    (∀ start p, find data (str "www") start = some p →
      p + (str "").length = p ∧
      (splice data p (str "www").length (str "")).length + 3 = data.length) := by
  refine ⟨fun fuel hfuel => replace_terminates data to_replace replacement hto fuel hfuel,
    fun start p hp => ⟨rfl, ?_⟩⟩
  obtain ⟨-, h2⟩ := find_some _ _ _ _ hp
  rw [splice_length _ _ _ _ h2]
  have h3 : (str "www").length = 3 := rfl
  have h0 : (str "").length = 0 := rfl
  rw [h3] at h2 ⊢
  rw [h0]
  omega

/-- C20 at `replace("wwwwww.a", "www", "")`. -/
theorem C20_replace_terminates_witness :
    str "www" ≠ [] ∧
    ((∀ fuel, (str "wwwwww.a").length / (str "www").length ≤ fuel →
      ∃ r k, replace fuel (str "wwwwww.a") (str "www") (str "") = some (r, k) ∧
        k ≤ (str "wwwwww.a").length / (str "www").length) ∧
    (∀ start p, find (str "wwwwww.a") (str "www") start = some p →
      p + (str "").length = p ∧
      (splice (str "wwwwww.a") p (str "www").length (str "")).length + 3 =
        (str "wwwwww.a").length)) :=
  ⟨by decide, C20_replace_terminates (str "wwwwww.a") (str "www") (str "") (by decide)⟩
